import Mathlib

/-!
Verification development for the reports repository (src/main.py).

The Python program is shallowly embedded: Python values that flow through the
pipeline (ints, floats, strings) become the inductive type `Value`, where
Python floats are modelled as exact rationals; Python exceptions become the
`Except PyErr` monad; in-place record mutation becomes explicit state passing
(a function that mutated a list in Python returns the updated list here).
Each definition is translated from the corresponding function in src/main.py,
named after it where Lean allows.
-/

namespace Reports

/-- Value models a Python value flowing through the pipeline: an int, a float
(modelled as an exact rational; the claims under verification never depend on
binary floating-point rounding), or a string. -/
inductive Value where
  | int (n : ℤ)
  | float (q : ℚ)
  | str (s : String)
deriving DecidableEq, Repr

/-- PyErr models the Python exceptions raised by the program, each carrying
its message. -/
inductive PyErr where
  | attributeError (msg : String)
  | valueError (msg : String)
  | typeError (msg : String)
  | indexError (msg : String)
deriving DecidableEq, Repr

instance {ε α : Type} [DecidableEq ε] [DecidableEq α] : DecidableEq (Except ε α) := fun x y =>
  match x, y with
  | Except.error a, Except.error b =>
    if h : a = b then isTrue (congrArg Except.error h)
    else isFalse (fun hc => h (by injection hc))
  | Except.error _, Except.ok _ => isFalse (fun hc => Except.noConfusion hc)
  | Except.ok _, Except.error _ => isFalse (fun hc => Except.noConfusion hc)
  | Except.ok a, Except.ok b =>
    if h : a = b then isTrue (congrArg Except.ok h)
    else isFalse (fun hc => h (by injection hc))

/-- listTrim models the Python str.strip(): it drops whitespace characters
from both ends of a character list. -/
def listTrim (cs : List Char) : List Char :=
  ((cs.dropWhile Char.isWhitespace).reverse.dropWhile Char.isWhitespace).reverse

/-- digitsToNat folds a list of decimal digit characters into a natural
number. -/
def digitsToNat (cs : List Char) : Nat :=
  cs.foldl (fun a c => 10 * a + (c.toNat - 48)) 0

/-- parseDecimal models the Python builtin float() applied to a string, for
plain decimal literals: optional surrounding whitespace, an optional sign,
digits with at most one decimal point (exponent notation, inf and nan are out
of scope for the claims; every string the claims mention is a plain literal).
Returns the exact rational value, or none where float() raises ValueError. -/
def parseDecimal (s : String) : Option ℚ :=
  let t := listTrim s.data
  let signAndRest : ℤ × List Char :=
    match t with
    | '-' :: cs => (-1, cs)
    | '+' :: cs => (1, cs)
    | cs => (1, cs)
  let intPart := signAndRest.2.takeWhile (fun c => c ≠ '.')
  let rest := signAndRest.2.drop intPart.length
  match rest with
  | [] =>
    if intPart.all Char.isDigit ∧ intPart ≠ [] then
      some (mkRat (signAndRest.1 * (digitsToNat intPart : ℤ)) 1)
    else none
  | _ :: fs =>
    if intPart.all Char.isDigit ∧ fs.all Char.isDigit ∧ (intPart ++ fs) ≠ [] ∧
        fs.all (fun c => c ≠ '.') then
      some (mkRat (signAndRest.1 * (digitsToNat (intPart ++ fs) : ℤ)) (10 ^ fs.length))
    else none

/-- pyFloat models the Python builtin float() on a pipeline value: ints and
floats convert, strings are parsed (none = ValueError). -/
def pyFloat : Value → Option ℚ
  | Value.int n => some (Rat.ofInt n)
  | Value.float q => some q
  | Value.str s => parseDecimal s

/-- to_number models Record._to_number (src/main.py lines 37-55): parse as a
float; narrow to int when the value is integral; on a parse failure return the
default when one was supplied, else the original value. -/
def to_number (value : Value) (default : Option Value) : Value :=
  match pyFloat value with
  | some q => if q.den = 1 then Value.int q.num else Value.float q
  | none =>
    match default with
    | some d => d
    | none => value

/-- Record models the dataclass Record (src/main.py lines 8-35): six declared
attributes plus the instance dictionary `attrs` holding dynamically attached
attributes such as payout. -/
structure Record where
  employee_id : Value
  department : Value
  email : Value
  name : Value
  hours : Value
  rate : Value
  attrs : List (String × Value)
deriving DecidableEq, Repr

/-- Record.make models constructing a Record: the dataclass initializer
followed by __post_init__, which normalizes employee_id (no default), hours
and rate (default 0). -/
def Record.make (employee_id department email name hours rate : Value) : Record :=
  { employee_id := to_number employee_id none
    department := department
    email := email
    name := name
    hours := to_number hours (some (Value.int 0))
    rate := to_number rate (some (Value.int 0))
    attrs := [] }

/-- dictFind looks a key up in an association list, returning the first
binding; it models Python dictionary and instance-dictionary lookup (keys are
unique there, so first = only). -/
def dictFind {α : Type} [DecidableEq α] {β : Type} : List (α × β) → α → Option β
  | [], _ => none
  | p :: ps, k => if p.1 = k then some p.2 else dictFind ps k

/-- dictSet writes a key in an association list the way a Python dict does:
overwrite in place when present, append when absent. -/
def dictSet {α : Type} [DecidableEq α] {β : Type} (d : List (α × β)) (k : α) (v : β) :
    List (α × β) :=
  if k ∈ d.map Prod.fst then d.map (fun p => if p.1 = k then (k, v) else p)
  else d ++ [(k, v)]

/-- noAttrMsg is the message of the AttributeError Python raises when getattr
fails: the object type and the missing attribute in single quotes. -/
def noAttrMsg (obj attr : String) : String :=
  "\x27" ++ obj ++ "\x27 object has no attribute \x27" ++ attr ++ "\x27"

/-- Record.getattr models getattr(record, field): the six declared attributes,
then the instance dictionary, else AttributeError. -/
def Record.getattr (r : Record) (field : String) : Except PyErr Value :=
  if field = "employee_id" then Except.ok r.employee_id
  else if field = "department" then Except.ok r.department
  else if field = "email" then Except.ok r.email
  else if field = "name" then Except.ok r.name
  else if field = "hours" then Except.ok r.hours
  else if field = "rate" then Except.ok r.rate
  else
    match dictFind r.attrs field with
    | some v => Except.ok v
    | none => Except.error (PyErr.attributeError (noAttrMsg "Record" field))

/-- Record.setattr models setattr(record, field, v): assigning a declared
attribute updates it, anything else goes to the instance dictionary. -/
def Record.setattr (r : Record) (field : String) (v : Value) : Record :=
  if field = "employee_id" then { r with employee_id := v }
  else if field = "department" then { r with department := v }
  else if field = "email" then { r with email := v }
  else if field = "name" then { r with name := v }
  else if field = "hours" then { r with hours := v }
  else if field = "rate" then { r with rate := v }
  else { r with attrs := dictSet r.attrs field v }

/-- exList runs an effectful function over a list left to right, collecting
the results and stopping at the first exception; it models a Python for loop
or comprehension over the list. -/
def exList {α β : Type} (f : α → Except PyErr β) : List α → Except PyErr (List β)
  | [] => Except.ok []
  | x :: xs =>
    match f x with
    | Except.error e => Except.error e
    | Except.ok y =>
      match exList f xs with
      | Except.error e => Except.error e
      | Except.ok ys => Except.ok (y :: ys)

/-- exFoldl folds an effectful step function over a list left to right,
stopping at the first exception; it models a Python loop threading an
accumulator. -/
def exFoldl {σ α : Type} (f : σ → α → Except PyErr σ) (acc : σ) : List α → Except PyErr σ
  | [] => Except.ok acc
  | x :: xs =>
    match f acc x with
    | Except.error e => Except.error e
    | Except.ok acc2 => exFoldl f acc2 xs

/-- strRepeat models Python string repetition s * n (a non-positive count
gives the empty string). -/
def strRepeat (s : String) (n : ℤ) : String :=
  String.join (List.replicate n.toNat s)

/-- unsupportedAddMsg abbreviates the message of the TypeError Python raises
for + on incompatible operand types. -/
def unsupportedAddMsg : String := "unsupported operand type(s) for +"

/-- unsupportedMulMsg abbreviates the message of the TypeError Python raises
for * on incompatible operand types. -/
def unsupportedMulMsg : String := "unsupported operand type(s) for *"

/-- vadd models Python + on pipeline values: int and float arithmetic with
the usual int-to-float promotion, string concatenation, and a TypeError on a
numeric-string mix. -/
def vadd : Value → Value → Except PyErr Value
  | Value.int a, Value.int b => Except.ok (Value.int (a + b))
  | Value.int a, Value.float q => Except.ok (Value.float (Rat.ofInt a + q))
  | Value.float q, Value.int a => Except.ok (Value.float (q + Rat.ofInt a))
  | Value.float p, Value.float q => Except.ok (Value.float (p + q))
  | Value.str a, Value.str b => Except.ok (Value.str (a ++ b))
  | _, _ => Except.error (PyErr.typeError unsupportedAddMsg)

/-- vmul models Python * on pipeline values: numeric multiplication with
int-to-float promotion, string repetition by an int, and a TypeError
otherwise. -/
def vmul : Value → Value → Except PyErr Value
  | Value.int a, Value.int b => Except.ok (Value.int (a * b))
  | Value.int a, Value.float q => Except.ok (Value.float (Rat.ofInt a * q))
  | Value.float q, Value.int a => Except.ok (Value.float (q * Rat.ofInt a))
  | Value.float p, Value.float q => Except.ok (Value.float (p * q))
  | Value.str s, Value.int n => Except.ok (Value.str (strRepeat s n))
  | Value.int n, Value.str s => Except.ok (Value.str (strRepeat s n))
  | _, _ => Except.error (PyErr.typeError unsupportedMulMsg)

/-- add_total models Group.add_total (src/main.py lines 93-103):
sum(getattr(record, field) for record in records), a left fold of + starting
from the int 0, looking the field up on each record in turn. -/
def add_total (records : List Record) (field : String) : Except PyErr Value :=
  exFoldl (fun acc r =>
    match r.getattr field with
    | Except.error e => Except.error e
    | Except.ok v => vadd acc v) (Value.int 0) records

/-- ghostMsg is the message of the AttributeError Group.__init__ raises for a
requested aggregate kind with no matching add_* method (src/main.py line 87). -/
def ghostMsg (method : String) : String :=
  "Tried to call add_" ++ method ++ ", but that method ghosted us."

/-- Group models the Group class (src/main.py lines 58-103): the group label,
its member records, the addon requests it was built with, and the instance
dictionary of aggregate attributes set by __init__ (for example total_hours). -/
structure Group where
  name : Value
  records : List Record
  addons : List (String × String)
  aggs : List (String × Value)
deriving DecidableEq, Repr

/-- Group.init models Group.__init__ (src/main.py lines 69-87): for each
(method, field) addon in order, when the method add_{method} exists on the
class it is invoked and its result stored under the attribute {method}_{field},
else an AttributeError naming the missing method is raised. add_total is the
only add_* attribute a Group has, so the hasattr test is method = "total". -/
def Group.init (name : Value) (records : List Record) (addons : List (String × String)) :
    Except PyErr Group :=
  match exFoldl (fun aggs mf =>
      if mf.1 = "total" then
        match add_total records mf.2 with
        | Except.error e => Except.error e
        | Except.ok v => Except.ok (dictSet aggs (mf.1 ++ "_" ++ mf.2) v)
      else Except.error (PyErr.attributeError (ghostMsg mf.1))) [] addons with
  | Except.error e => Except.error e
  | Except.ok aggs => Except.ok { name := name, records := records, addons := addons, aggs := aggs }

/-- Group.getattr models getattr(group, attr) for the dynamically set
aggregate attributes. The formatter only ever looks up names of the shape
kind_field, which always contain an underscore, so the fixed attributes name,
records and addons (whose names contain none) are never the target and are
left out of the model. -/
def Group.getattr (g : Group) (attr : String) : Except PyErr Value :=
  match dictFind g.aggs attr with
  | some v => Except.ok v
  | none => Except.error (PyErr.attributeError (noAttrMsg "Group" attr))

/-- Review models the Review dataclass (src/main.py lines 106-116): the
grouped data plus the ordered field list to render. -/
structure Review where
  groups : List Group
  fields : List String
deriving DecidableEq, Repr

/-- Report models the declarative configuration of a Report subclass
(src/main.py lines 119-148): the groupby key, the addon requests, the include
list, and the add_* methods the subclass defines, as a name-to-implementation
table (a method takes the record list and returns the updated list, since the
Python original mutates records in place). -/
structure Report where
  groupby : String
  addons : List (String × String)
  includeFields : List String
  addMethods : List (String × (List Record → Except PyErr (List Record)))

/-- baseFields is the built-in field list of Report.add_fields (src/main.py
line 162) that needs no add_* method. -/
def baseFields : List String :=
  ["employee_id", "department", "email", "name", "hours", "rate"]

/-- missingFieldMsg is the message of the AttributeError Report.add_fields
raises for an include field with no add_* method (src/main.py line 169). -/
def missingFieldMsg (field : String) : String :=
  "\x27" ++ field ++ "\x27 is missing and there\x27s no \x27add_" ++ field ++
    "\x27 method to save the day."

/-- addFieldsAux is the loop of Report.add_fields over a field list: base
fields need nothing, any other field is handled by its add_{field} method when
present and raises an AttributeError naming the method when absent. -/
def addFieldsAux (rep : Report) (records : List Record) : List String → Except PyErr (List Record)
  | [] => Except.ok records
  | field :: rest =>
    if field ∈ baseFields then addFieldsAux rep records rest
    else
      match dictFind rep.addMethods ("add_" ++ field) with
      | some method =>
        match method records with
        | Except.error e => Except.error e
        | Except.ok records2 => addFieldsAux rep records2 rest
      | none => Except.error (PyErr.attributeError (missingFieldMsg field))

/-- Report.add_fields models Report.add_fields (src/main.py lines 150-169),
returning the record list after the in-place augmentation. -/
def Report.add_fields (rep : Report) (records : List Record) : Except PyErr (List Record) :=
  addFieldsAux rep records rep.includeFields

/-- dictAppend models defaultdict(list) item append: grouped[k].append(r)
appends to the existing entry when the key is present and inserts a fresh
singleton entry at the end when it is not (dict insertion order). -/
def dictAppend (d : List (Value × List Record)) (k : Value) (r : Record) :
    List (Value × List Record) :=
  if k ∈ d.map Prod.fst then d.map (fun p => if p.1 = k then (p.1, p.2 ++ [r]) else p)
  else d ++ [(k, [r])]

/-- Report.process models Report.process (src/main.py lines 171-183): bucket
every record by its groupby attribute into a defaultdict preserving insertion
order, then build one Group per key with the configured addons. -/
def Report.process (rep : Report) (records : List Record) : Except PyErr (List Group) :=
  match exFoldl (fun acc r =>
      match r.getattr rep.groupby with
      | Except.error e => Except.error e
      | Except.ok k => Except.ok (dictAppend acc k r)) [] records with
  | Except.error e => Except.error e
  | Except.ok grouped => exList (fun kv => Group.init kv.1 kv.2 rep.addons) grouped

/-- Report.create models Report.create (src/main.py lines 185-198): augment
the records, group them, and package the result with the include list. -/
def Report.create (rep : Report) (records : List Record) : Except PyErr Review :=
  match rep.add_fields records with
  | Except.error e => Except.error e
  | Except.ok records2 =>
    match rep.process records2 with
    | Except.error e => Except.error e
    | Except.ok groups => Except.ok { groups := groups, fields := rep.includeFields }

/-- add_payout models PayoutReport.add_payout (src/main.py lines 216-224):
set payout = hours * rate on every record. -/
def add_payout (records : List Record) : Except PyErr (List Record) :=
  exList (fun r =>
    match vmul r.hours r.rate with
    | Except.error e => Except.error e
    | Except.ok p => Except.ok (r.setattr "payout" p)) records

/-- PayoutReport models the PayoutReport subclass (src/main.py lines 201-224):
group by department, total hours and payout per group, include name, hours,
rate and payout, with the add_payout method. -/
def PayoutReport : Report :=
  { groupby := "department"
    addons := [("total", "hours"), ("total", "payout")]
    includeFields := ["name", "hours", "rate", "payout"]
    addMethods := [("add_payout", add_payout)] }

/-- pyCapitalize models the Python str.capitalize(): first character upper
case, the rest lower case. -/
def pyCapitalize (s : String) : String :=
  match s.data with
  | [] => ""
  | c :: rest => String.mk (c.toUpper :: rest.map Char.toLower)

/-- notInListStrMsg is the message of the ValueError list.index raises for a
missing string element. -/
def notInListStrMsg (x : String) : String := "\x27" ++ x ++ "\x27 is not in list"

/-- notInListNatMsg is the message of the ValueError list.index raises for a
missing int element. -/
def notInListNatMsg (n : Nat) : String := toString n ++ " is not in list"

/-- listIndexStr models list.index on a list of strings: the index of the
first occurrence, or a ValueError. -/
def listIndexStr : List String → String → Except PyErr Nat
  | [], x => Except.error (PyErr.valueError (notInListStrMsg x))
  | y :: ys, x =>
    if y = x then Except.ok 0
    else
      match listIndexStr ys x with
      | Except.error e => Except.error e
      | Except.ok i => Except.ok (i + 1)

/-- listIndexNat models list.index on a list of ints: the index of the first
occurrence, or a ValueError. -/
def listIndexNat : List Nat → Nat → Except PyErr Nat
  | [], x => Except.error (PyErr.valueError (notInListNatMsg x))
  | y :: ys, x =>
    if y = x then Except.ok 0
    else
      match listIndexNat ys x with
      | Except.error e => Except.error e
      | Except.ok i => Except.ok (i + 1)

/-- recordCells is the record-row comprehension of Formatter.console
(src/main.py line 253): the values of the displayed fields of one record, in
field order. -/
def recordCells (fields : List String) (r : Record) : Except PyErr (List Value) :=
  exList (fun f => r.getattr f) fields

/-- consoleGroupRows is the body of the per-group loop of Formatter.console
(src/main.py lines 249-256): the group-name row, one row per member record,
and the trailing aggregate row, whose dict maps the include-list index of each
addon field (a ValueError when the field is not displayed) to the aggregate
value. -/
def consoleGroupRows (fields : List String) (g : Group) : Except PyErr (List (List Value)) :=
  match exList (fun r =>
      match recordCells fields r with
      | Except.error e => Except.error e
      | Except.ok cells => Except.ok (Value.str "" :: cells)) g.records with
  | Except.error e => Except.error e
  | Except.ok recRows =>
    match exFoldl (fun d a =>
        match listIndexStr fields a.2 with
        | Except.error e => Except.error e
        | Except.ok i =>
          match g.getattr (a.1 ++ "_" ++ a.2) with
          | Except.error e => Except.error e
          | Except.ok v => Except.ok (dictSet d i v)) ([] : List (Nat × Value)) g.addons with
    | Except.error e => Except.error e
    | Except.ok addonsDict =>
      Except.ok ((g.name :: fields.map (fun _ => Value.str "")) ::
        recRows ++ [Value.str "" :: (List.range fields.length).map
          (fun i => (dictFind addonsDict i).getD (Value.str ""))])

/-- Formatter.consoleRows is the cell table Formatter.console builds before
alignment (src/main.py lines 247-256): the capitalized header row followed by
the per-group blocks. -/
def Formatter.consoleRows (review : Review) : Except PyErr (List (List Value)) :=
  match exList (consoleGroupRows review.fields) review.groups with
  | Except.error e => Except.error e
  | Except.ok blocks =>
    Except.ok ((Value.str "" :: review.fields.map (fun f => Value.str (pyCapitalize f))) ::
      blocks.flatten)

/-- floatStr renders our exact-rational float model as a decimal string, the
shape Python repr gives on the values the pipeline produces; no claim under
verification depends on this rendering. -/
def floatStr (q : ℚ) : String :=
  match (List.range (q.den + 1)).find? (fun k => decide (10 ^ k % q.den = 0)) with
  | some k =>
    let scaled : ℤ := q.num * (((10 ^ k : ℕ) / q.den : ℕ) : ℤ)
    let a := scaled.natAbs
    let sign := if q.num < 0 then "-" else ""
    if k = 0 then sign ++ toString (a / 10 ^ k) ++ ".0"
    else
      let fs := toString (a % 10 ^ k)
      sign ++ toString (a / 10 ^ k) ++ "." ++
        String.mk (List.replicate (k - fs.length) '0') ++ fs
  | none => toString q.num ++ "/" ++ toString q.den

/-- pyStr models the Python str() of a pipeline value. -/
def pyStr : Value → String
  | Value.int n => toString n
  | Value.float q => floatStr q
  | Value.str s => s

/-- ljust models the Python str.ljust: pad on the right with spaces up to the
given width. -/
def ljust (s : String) (w : Nat) : String :=
  s ++ String.mk (List.replicate (w - s.length) ' ')

/-- Formatter.console models Formatter.console (src/main.py lines 237-261):
the cell table, column widths (every produced row has length 1 + number of
fields, so transposing agrees with the zip(*rows) of the source, and every
column is nonempty, so the fold with 0 agrees with max), left-justified cells
joined by three spaces, lines joined by newlines. -/
def Formatter.console (review : Review) : Except PyErr String :=
  match Formatter.consoleRows review with
  | Except.error e => Except.error e
  | Except.ok rows =>
    let widths := ((rows.map (fun row => row.map (fun c => (pyStr c).length))).transpose).map
      (fun col => col.foldl Nat.max 0)
    Except.ok (String.intercalate "\n" (rows.map (fun row =>
      String.intercalate "   " ((row.zip widths).map (fun cw => ljust (pyStr cw.1) cw.2)))))

/-- format_record is the nested helper of Formatter.jsonfile (src/main.py
lines 273-274): one record as a field-name-to-value mapping in field order. -/
def format_record (fields : List String) (r : Record) : Except PyErr (List (String × Value)) :=
  exList (fun f =>
    match r.getattr f with
    | Except.error e => Except.error e
    | Except.ok v => Except.ok (f, v)) fields

/-- GroupDoc is one group object of the structured document: the serialized
records plus one entry per aggregate. The records list and the aggregate
entries never collide in the Python dict because every aggregate key contains
an underscore while the key of the records list is "records". -/
structure GroupDoc where
  records : List (List (String × Value))
  addons : List (String × Value)
deriving DecidableEq, Repr

/-- jsonGroupDoc is the per-group body of Formatter.jsonfile (src/main.py
lines 277-280): serialize the member records, then the aggregates keyed by
their composite names. -/
def jsonGroupDoc (fields : List String) (g : Group) : Except PyErr GroupDoc :=
  match exList (format_record fields) g.records with
  | Except.error e => Except.error e
  | Except.ok recs =>
    match exFoldl (fun d a =>
        match g.getattr (a.1 ++ "_" ++ a.2) with
        | Except.error e => Except.error e
        | Except.ok v => Except.ok (dictSet d (a.1 ++ "_" ++ a.2) v))
        ([] : List (String × Value)) g.addons with
    | Except.error e => Except.error e
    | Except.ok adds => Except.ok { records := recs, addons := adds }

/-- Formatter.jsonfile models Formatter.jsonfile (src/main.py lines 263-282):
a mapping from group name to the group object, in group order. -/
def Formatter.jsonfile (review : Review) : Except PyErr (List (Value × GroupDoc)) :=
  exFoldl (fun formatted g =>
    match jsonGroupDoc review.fields g with
    | Except.error e => Except.error e
    | Except.ok doc => Except.ok (dictSet formatted g.name doc)) [] review.groups

/-- columns is the known-column list of the loader (src/main.py line 397). -/
def columns : List String :=
  ["id", "department", "email", "name", "hours_worked", "hourly_rate", "rate", "salary"]

/-- colIndex is the per-header-column mapping of load_records (src/main.py
line 426): the index of the column name in the known-column list (a ValueError
for an unknown name), clamped to 5. -/
def colIndex (column : String) : Except PyErr Nat :=
  match listIndexStr columns column with
  | Except.error e => Except.error e
  | Except.ok i => Except.ok (min i 5)

/-- splitOnComma models the Python str.split(",") on a character list. -/
def splitOnComma : List Char → List (List Char)
  | [] => [[]]
  | x :: xs =>
    match splitOnComma xs with
    | [] => [[]]
    | y :: ys => if x = ',' then [] :: y :: ys else (x :: y) :: ys

/-- splitLine models line.strip().split(",") from load_records (src/main.py
line 424). -/
def splitLine (line : String) : List String :=
  (splitOnComma (listTrim line.data)).map (fun cs => String.mk cs)

/-- pyIndexStrList models data[j] on a Python list of strings: the element, or
an IndexError. The index here is always non-negative, so negative indexing
does not arise. -/
def pyIndexStrList (data : List String) (j : Nat) : Except PyErr String :=
  match data.get? j with
  | some s => Except.ok s
  | none => Except.error (PyErr.indexError "list index out of range")

/-- mkRecordArgs models Record(*args): the dataclass call succeeds on exactly
six positional arguments and raises a TypeError otherwise (message
abbreviated). -/
def mkRecordArgs (args : List String) : Except PyErr Record :=
  match args with
  | [a, b, c, d, e, f] =>
    Except.ok (Record.make (Value.str a) (Value.str b) (Value.str c) (Value.str d)
      (Value.str e) (Value.str f))
  | _ => Except.error (PyErr.typeError "Record takes six positional arguments")

/-- load_records models load_records (src/main.py lines 404-433) on the list
of lines of the file (the try block re-raises the original exception after
printing, so the error itself is the observable outcome): strip and split
every line, map the header columns to clamped known-column positions, then
build one Record per data row by looking up, for every position i below the
header length, which header column feeds it. An empty file raises an
IndexError at lines[0]. -/
def load_records (fileLines : List String) : Except PyErr (List Record) :=
  match fileLines.map splitLine with
  | [] => Except.error (PyErr.indexError "list index out of range")
  | header :: rest =>
    match exList colIndex header with
    | Except.error e => Except.error e
    | Except.ok order =>
      exList (fun data =>
        match exList (fun i =>
            match listIndexNat order i with
            | Except.error e => Except.error e
            | Except.ok j => pyIndexStrList data j) (List.range order.length) with
        | Except.error e => Except.error e
        | Except.ok args => mkRecordArgs args) rest

/-! Helper lemmas about the effectful list combinators. -/

theorem exList_ok_forall2 {α β : Type} {f : α → Except PyErr β} :
    ∀ {l : List α} {ys : List β}, exList f l = Except.ok ys →
      List.Forall₂ (fun a b => f a = Except.ok b) l ys := by
  intro l
  induction l with
  | nil =>
    intro ys h
    cases h
    exact List.Forall₂.nil
  | cons a as ih =>
    intro ys h
    unfold exList at h
    cases hfa : f a with
    | error e => rw [hfa] at h; cases h
    | ok y =>
      rw [hfa] at h
      cases hrest : exList f as with
      | error e => rw [hrest] at h; cases h
      | ok ys2 =>
        rw [hrest] at h
        cases h
        exact List.Forall₂.cons hfa (ih hrest)

theorem forall2_mem_left {α β : Type} {R : α → β → Prop} :
    ∀ {l : List α} {ys : List β}, List.Forall₂ R l ys → ∀ x ∈ l, ∃ y, R x y := by
  intro l ys h
  induction h with
  | nil => intro x hx; cases hx
  | cons hab _ ih =>
    intro x hx
    cases hx with
    | head => exact ⟨_, hab⟩
    | tail _ hmem => exact ih x hmem

theorem exList_ok_mem {α β : Type} {f : α → Except PyErr β} {l : List α} {ys : List β}
    (h : exList f l = Except.ok ys) : ∀ x ∈ l, ∃ y, f x = Except.ok y :=
  forall2_mem_left (exList_ok_forall2 h)

theorem exList_error_of_bad {α β : Type} {f : α → Except PyErr β} {l : List α} {x : α}
    (hx : x ∈ l) (hbad : ∀ y, f x ≠ Except.ok y) : ∃ e, exList f l = Except.error e := by
  cases h : exList f l with
  | error e => exact ⟨e, rfl⟩
  | ok ys =>
    obtain ⟨y, hy⟩ := exList_ok_mem h x hx
    exact absurd hy (hbad y)

theorem exList_ok_of_forall {α β : Type} {f : α → Except PyErr β} :
    ∀ {l : List α}, (∀ x ∈ l, ∃ y, f x = Except.ok y) → ∃ ys, exList f l = Except.ok ys := by
  intro l
  induction l with
  | nil => exact fun _ => ⟨[], rfl⟩
  | cons a as ih =>
    intro h
    obtain ⟨y, hy⟩ := h a (List.mem_cons_self a as)
    obtain ⟨ys, hys⟩ := ih (fun x hx => h x (List.mem_cons_of_mem a hx))
    exact ⟨y :: ys, by unfold exList; rw [hy, hys]⟩

theorem exFoldl_ok_mem {σ α : Type} {f : σ → α → Except PyErr σ} :
    ∀ {l : List α} {d out : σ}, exFoldl f d l = Except.ok out →
      ∀ x ∈ l, ∃ acc res, f acc x = Except.ok res := by
  intro l
  induction l with
  | nil => intro d out _ x hx; cases hx
  | cons a as ih =>
    intro d out h x hx
    unfold exFoldl at h
    cases hfa : f d a with
    | error e => rw [hfa] at h; cases h
    | ok acc2 =>
      rw [hfa] at h
      cases hx with
      | head => exact ⟨d, acc2, hfa⟩
      | tail _ hmem => exact ih h x hmem

theorem exFoldl_error_of_bad {σ α : Type} {f : σ → α → Except PyErr σ} {l : List α} {d : σ}
    {x : α} (hx : x ∈ l) (hbad : ∀ acc res, f acc x ≠ Except.ok res) :
    ∃ e, exFoldl f d l = Except.error e := by
  cases h : exFoldl f d l with
  | error e => exact ⟨e, rfl⟩
  | ok out =>
    obtain ⟨acc, res, hres⟩ := exFoldl_ok_mem h x hx
    exact absurd hres (hbad acc res)

theorem listIndexStr_ok_mem : ∀ {l : List String} {x : String} {i : Nat},
    listIndexStr l x = Except.ok i → x ∈ l := by
  intro l
  induction l with
  | nil => intro x i h; cases h
  | cons y ys ih =>
    intro x i h
    unfold listIndexStr at h
    by_cases hxy : y = x
    · rw [hxy]; exact List.mem_cons_self x ys
    · rw [if_neg hxy] at h
      cases hr : listIndexStr ys x with
      | error e => rw [hr] at h; cases h
      | ok j => exact List.mem_cons_of_mem y (ih hr)

theorem listIndexNat_ok_mem : ∀ {l : List Nat} {x : Nat} {i : Nat},
    listIndexNat l x = Except.ok i → x ∈ l := by
  intro l
  induction l with
  | nil => intro x i h; cases h
  | cons y ys ih =>
    intro x i h
    unfold listIndexNat at h
    by_cases hxy : y = x
    · rw [hxy]; exact List.mem_cons_self x ys
    · rw [if_neg hxy] at h
      cases hr : listIndexNat ys x with
      | error e => rw [hr] at h; cases h
      | ok j => exact List.mem_cons_of_mem y (ih hr)

/-- C1: the three-record scenario through the payout report yields two groups,
"HR" then "Fin", with total_hours 15 and total_payout 700 for HR, total_hours
20 and total_payout 2000 for Fin, and the field list [name, hours, rate,
payout] in that order. -/
theorem C1 :
    ∃ review : Review,
      Report.create PayoutReport
        [Record.make (Value.int 1) (Value.str "HR") (Value.str "a@x") (Value.str "Anna")
          (Value.int 10) (Value.int 50),
         Record.make (Value.int 2) (Value.str "HR") (Value.str "b@x") (Value.str "Ben")
          (Value.int 5) (Value.int 40),
         Record.make (Value.int 3) (Value.str "Fin") (Value.str "c@x") (Value.str "Carl")
          (Value.int 20) (Value.int 100)] = Except.ok review ∧
      review.groups.map Group.name = [Value.str "HR", Value.str "Fin"] ∧
      review.groups.map Group.aggs =
        [[("total_hours", Value.int 15), ("total_payout", Value.int 700)],
         [("total_hours", Value.int 20), ("total_payout", Value.int 2000)]] ∧
      review.fields = ["name", "hours", "rate", "payout"] := by
  exact ⟨_, rfl, by decide, by decide, by decide⟩

/-- C5: value normalization, stated over the decimal-literal parse model of
the Python float builtin: a parse with integral value yields the int, a parse
with fractional part yields the float, a failed parse yields the supplied
default (hours and rate use default 0), and with no default the original
string value is returned unchanged. -/
theorem C5 : ∀ s : String,
    (∀ q : ℚ, parseDecimal s = some q → q.den = 1 →
      ∀ d : Option Value, to_number (Value.str s) d = Value.int q.num) ∧
    (∀ q : ℚ, parseDecimal s = some q → q.den ≠ 1 →
      ∀ d : Option Value, to_number (Value.str s) d = Value.float q) ∧
    (parseDecimal s = none → ∀ d : Value, to_number (Value.str s) (some d) = d) ∧
    (parseDecimal s = none → to_number (Value.str s) none = Value.str s) ∧
    (parseDecimal s = none →
      ∀ a b c d e : Value,
        (Record.make a b c d (Value.str s) e).hours = Value.int 0 ∧
        (Record.make a b c d e (Value.str s)).rate = Value.int 0) := by
  intro s
  refine ⟨?_, ?_, ?_, ?_, ?_⟩
  · intro q hq hden d
    simp [to_number, pyFloat, hq, hden]
  · intro q hq hden d
    simp [to_number, pyFloat, hq, hden]
  · intro hq d
    simp [to_number, pyFloat, hq]
  · intro hq
    simp [to_number, pyFloat, hq]
  · intro hq a b c d e
    constructor
    · simp [Record.make, to_number, pyFloat, hq]
    · simp [Record.make, to_number, pyFloat, hq]

theorem C5_witness :
    parseDecimal "12" = some (mkRat 12 1) ∧ (mkRat 12 1).den = 1 ∧
    to_number (Value.str "12") none = Value.int 12 ∧
    parseDecimal "2.5" = some (mkRat 5 2) ∧ (mkRat 5 2).den ≠ 1 ∧
    to_number (Value.str "2.5") (some (Value.int 0)) = Value.float (mkRat 5 2) ∧
    parseDecimal "abc" = none ∧
    to_number (Value.str "abc") (some (Value.int 0)) = Value.int 0 ∧
    to_number (Value.str "abc") none = Value.str "abc" ∧
    (Record.make (Value.int 1) (Value.str "HR") (Value.str "x") (Value.str "A")
      (Value.str "abc") (Value.int 3)).hours = Value.int 0 := by
  refine ⟨by decide, by decide, ?_, by decide, by decide, ?_, by decide, ?_, ?_, ?_⟩
  · exact (C5 "12").1 (mkRat 12 1) (by decide) (by decide) none
  · exact (C5 "2.5").2.1 (mkRat 5 2) (by decide) (by decide) (some (Value.int 0))
  · exact (C5 "abc").2.2.1 (by decide) (Value.int 0)
  · exact (C5 "abc").2.2.2.1 (by decide)
  · exact ((C5 "abc").2.2.2.2 (by decide) (Value.int 1) (Value.str "HR") (Value.str "x")
      (Value.str "A") (Value.int 3)).1

/-- c2review is a Review whose only group carries the aggregate total_salary
while salary is not a displayed field. -/
def c2review : Review :=
  { groups := [{ name := Value.str "G"
                 records := []
                 addons := [("total", "salary")]
                 aggs := [("total_salary", Value.int 5)] }]
    fields := ["name"] }

/-- C2 counterexample: on c2review the table renderer does not succeed but
raises the ValueError of the field-name index lookup. -/
theorem C2_counterexample :
    Formatter.console c2review =
      Except.error (PyErr.valueError (notInListStrMsg "salary")) := by decide

/-- C2 amended: for every Review in which some group carries an aggregate
whose field name does not appear in the field list, the table renderer does
not succeed: it raises an error (the ValueError of the field-name index
lookup, when nothing earlier in the table fails first). -/
theorem C2_amended : ∀ review : Review,
    (∃ g ∈ review.groups, ∃ a ∈ g.addons, a.2 ∉ review.fields) →
    ∃ e, Formatter.console review = Except.error e := by
  intro review ⟨g, hg, a, ha, hfld⟩
  have hgbad : ∀ block, consoleGroupRows review.fields g ≠ Except.ok block := by
    intro block hok
    unfold consoleGroupRows at hok
    cases hrec : exList (fun r =>
        match recordCells review.fields r with
        | Except.error e => Except.error e
        | Except.ok cells => Except.ok (Value.str "" :: cells)) g.records with
    | error e => rw [hrec] at hok; cases hok
    | ok recRows =>
      rw [hrec] at hok
      cases hadd : exFoldl (fun d a =>
          match listIndexStr review.fields a.2 with
          | Except.error e => Except.error e
          | Except.ok i =>
            match g.getattr (a.1 ++ "_" ++ a.2) with
            | Except.error e => Except.error e
            | Except.ok v => Except.ok (dictSet d i v)) ([] : List (Nat × Value)) g.addons with
      | error e => rw [hadd] at hok; cases hok
      | ok addonsDict =>
        obtain ⟨acc, res, hres⟩ := exFoldl_ok_mem hadd a ha
        cases hidx : listIndexStr review.fields a.2 with
        | error e => rw [hidx] at hres; cases hres
        | ok i => exact hfld (listIndexStr_ok_mem hidx)
  obtain ⟨e, he⟩ := exList_error_of_bad hg (fun block => hgbad block)
  refine ⟨e, ?_⟩
  unfold Formatter.console Formatter.consoleRows
  rw [he]

theorem C2_amended_witness :
    ∃ e, Formatter.console c2review = Except.error e :=
  C2_amended c2review ⟨_, List.mem_cons_self _ _, ("total", "salary"),
    List.mem_cons_self _ _, by decide⟩

/-- C8 counterexample: a header that omits expected columns (only id and name
are present) together with one data row makes loading fail with the ValueError
of the position lookup, not succeed with fields missing. -/
theorem C8_counterexample :
    load_records ["id,name", "1,Anna"] =
      Except.error (PyErr.valueError (notInListNatMsg 1)) := by decide

/-- C8 amended: loading is not permissive about absent columns: whenever the
mapped header positions fail to cover some position below the header length
and at least one data row is present, load_records raises an error (the
ValueError of the position lookup on the first such row, when nothing fails
earlier) instead of producing Records with fields missing. -/
theorem C8_amended : ∀ (l0 : String) (ls : List String) (order : List Nat) (i : Nat),
    exList colIndex (splitLine l0) = Except.ok order →
    i < order.length → i ∉ order → ls ≠ [] →
    ∃ e, load_records (l0 :: ls) = Except.error e := by
  intro l0 ls order i horder hi hnotin hne
  have hrowbad : ∀ (data : List String) args,
      exList (fun i =>
        match listIndexNat order i with
        | Except.error e => Except.error e
        | Except.ok j => pyIndexStrList data j) (List.range order.length) ≠ Except.ok args := by
    intro data args hok
    obtain ⟨y, hy⟩ := exList_ok_mem hok i (List.mem_range.mpr hi)
    cases hidx : listIndexNat order i with
    | error e => rw [hidx] at hy; cases hy
    | ok j => exact hnotin (listIndexNat_ok_mem hidx)
  cases ls with
  | nil => exact absurd rfl hne
  | cons l1 ls2 =>
    have hbad1 : ∀ rec, (fun data =>
        match exList (fun i =>
            match listIndexNat order i with
            | Except.error e => Except.error e
            | Except.ok j => pyIndexStrList data j) (List.range order.length) with
        | Except.error e => Except.error e
        | Except.ok args => mkRecordArgs args) (splitLine l1) ≠ Except.ok rec := by
      intro rec hok
      simp only at hok
      cases hargs : exList (fun i =>
          match listIndexNat order i with
          | Except.error e => Except.error e
          | Except.ok j => pyIndexStrList (splitLine l1) j) (List.range order.length) with
      | error e => rw [hargs] at hok; cases hok
      | ok args => exact hrowbad (splitLine l1) args hargs
    obtain ⟨e, he⟩ := @exList_error_of_bad (List String) Record
      (fun data =>
        match exList (fun i =>
            match listIndexNat order i with
            | Except.error e => Except.error e
            | Except.ok j => pyIndexStrList data j) (List.range order.length) with
        | Except.error e => Except.error e
        | Except.ok args => mkRecordArgs args)
      (splitLine l1 :: ls2.map splitLine) (splitLine l1)
      (List.mem_cons_self (splitLine l1) (ls2.map splitLine)) hbad1
    refine ⟨e, ?_⟩
    unfold load_records
    simp only [List.map_cons]
    rw [horder]
    exact he

theorem C8_amended_witness :
    ∃ e, load_records ["id,name", "1,Anna"] = Except.error e :=
  C8_amended "id,name" ["1,Anna"] [0, 3] 1 (by decide) (by decide) (by decide) (by decide)

theorem exFoldl_append {σ α : Type} {f : σ → α → Except PyErr σ} :
    ∀ (l1 l2 : List α) (d : σ),
      exFoldl f d (l1 ++ l2) =
        match exFoldl f d l1 with
        | Except.error e => Except.error e
        | Except.ok d2 => exFoldl f d2 l2 := by
  intro l1
  induction l1 with
  | nil => intro l2 d; rfl
  | cons a as ih =>
    intro l2 d
    simp only [List.cons_append, exFoldl]
    cases f d a with
    | error e => rfl
    | ok d2 => exact ih l2 d2

theorem exFoldl_error_mem {σ α : Type} {f : σ → α → Except PyErr σ} :
    ∀ {l : List α} {d : σ} {e : PyErr}, exFoldl f d l = Except.error e →
      ∃ acc x, x ∈ l ∧ f acc x = Except.error e := by
  intro l
  induction l with
  | nil => intro d e h; cases h
  | cons a as ih =>
    intro d e h
    unfold exFoldl at h
    cases hfa : f d a with
    | error e2 =>
      rw [hfa] at h
      injection h with h2
      rw [h2] at hfa
      exact ⟨d, a, List.mem_cons_self a as, hfa⟩
    | ok d2 =>
      rw [hfa] at h
      obtain ⟨acc, x, hx, hfx⟩ := ih h
      exact ⟨acc, x, List.mem_cons_of_mem a hx, hfx⟩

theorem dictFind_some_mem {α β : Type} [DecidableEq α] :
    ∀ {l : List (α × β)} {k : α} {v : β}, dictFind l k = some v → (k, v) ∈ l := by
  intro l
  induction l with
  | nil => intro k v h; cases h
  | cons p ps ih =>
    intro k v h
    unfold dictFind at h
    by_cases hpk : p.1 = k
    · rw [if_pos hpk] at h
      injection h with h2
      have : p = (k, v) := by rw [← hpk, ← h2]
      rw [← this]
      exact List.mem_cons_self p ps
    · rw [if_neg hpk] at h
      exact List.mem_cons_of_mem p (ih h)

theorem getattr_error_shape : ∀ {r : Record} {fld : String} {e : PyErr},
    Record.getattr r fld = Except.error e →
    e = PyErr.attributeError (noAttrMsg "Record" fld) := by
  intro r fld e h
  unfold Record.getattr at h
  split_ifs at h <;>
    first
      | exact Except.noConfusion h
      | (cases hd : dictFind r.attrs fld with
         | some v => rw [hd] at h; exact Except.noConfusion h
         | none => rw [hd] at h; injection h with h2; exact h2.symm)

theorem vadd_error_shape : ∀ {a b : Value} {e : PyErr},
    vadd a b = Except.error e → e = PyErr.typeError unsupportedAddMsg := by
  intro a b e h
  cases a <;> cases b <;>
    first
      | exact Except.noConfusion h
      | (injection h with h2; exact h2.symm)

theorem add_total_error_shape {records : List Record} {fld : String} {e : PyErr}
    (h : add_total records fld = Except.error e) :
    e = PyErr.attributeError (noAttrMsg "Record" fld) ∨
      e = PyErr.typeError unsupportedAddMsg := by
  unfold add_total at h
  obtain ⟨acc, r, _, hstep⟩ := exFoldl_error_mem h
  cases hg : Record.getattr r fld with
  | error e2 =>
    rw [hg] at hstep
    injection hstep with h2
    exact Or.inl (h2.symm.trans (getattr_error_shape hg))
  | ok v =>
    rw [hg] at hstep
    exact Or.inr (vadd_error_shape hstep)

theorem ghost_ne_noAttr (m obj fld : String) : ghostMsg m ≠ noAttrMsg obj fld := by
  intro h
  have h2 : (ghostMsg m).data.head? = (noAttrMsg obj fld).data.head? := by rw [h]
  have hL : (ghostMsg m).data.head? = some 'T' := rfl
  have hR : (noAttrMsg obj fld).data.head? = some '\x27' := rfl
  rw [hL, hR] at h2
  injection h2 with h3
  exact absurd h3 (by decide)

/-- init_ghost_first: when every addon before (m, fld) goes through and m has
no add_m method, Group construction fails with the AttributeError naming
add_m. -/
theorem init_ghost_first (nm : Value) (records : List Record) (pre : List (String × String))
    (m fld : String) (post : List (String × String)) (g0 : Group)
    (hm : m ≠ "total") (hpre : Group.init nm records pre = Except.ok g0) :
    Group.init nm records (pre ++ (m, fld) :: post) =
      Except.error (PyErr.attributeError (ghostMsg m)) := by
  unfold Group.init at hpre ⊢
  cases hfold : exFoldl (fun aggs mf =>
      if mf.1 = "total" then
        match add_total records mf.2 with
        | Except.error e => Except.error e
        | Except.ok v => Except.ok (dictSet aggs (mf.1 ++ "_" ++ mf.2) v)
      else Except.error (PyErr.attributeError (ghostMsg mf.1))) [] pre with
  | error e => rw [hfold] at hpre; cases hpre
  | ok aggs0 =>
    rw [exFoldl_append, hfold]
    simp only [exFoldl]
    rw [if_neg hm]

/-- init_no_ghost: when every requested aggregate kind has its add_* method
(every kind is total), Group construction never fails with the
missing-method AttributeError; any failure comes from the total computation
itself. -/
theorem init_no_ghost (nm : Value) (records : List Record) (addons : List (String × String))
    (htotal : ∀ p ∈ addons, p.1 = "total") (m : String) :
    Group.init nm records addons ≠ Except.error (PyErr.attributeError (ghostMsg m)) := by
  intro hinit
  unfold Group.init at hinit
  cases hfold : exFoldl (fun aggs mf =>
      if mf.1 = "total" then
        match add_total records mf.2 with
        | Except.error e => Except.error e
        | Except.ok v => Except.ok (dictSet aggs (mf.1 ++ "_" ++ mf.2) v)
      else Except.error (PyErr.attributeError (ghostMsg mf.1))) [] addons with
  | ok aggs => rw [hfold] at hinit; exact Except.noConfusion hinit
  | error e =>
    rw [hfold] at hinit
    injection hinit with h2
    obtain ⟨acc, p, hp, hstep⟩ := exFoldl_error_mem hfold
    rw [if_pos (htotal p hp)] at hstep
    cases hat : add_total records p.2 with
    | ok v => rw [hat] at hstep; exact Except.noConfusion hstep
    | error e2 =>
      rw [hat] at hstep
      injection hstep with h3
      rw [h3] at hat
      rw [h2] at hat
      cases add_total_error_shape hat with
      | inl hshape =>
        injection hshape with h4
        exact ghost_ne_noAttr m "Record" p.2 h4
      | inr hshape => exact PyErr.noConfusion hshape

theorem addFieldsAux_append (rep : Report) : ∀ (l1 l2 : List String) (records : List Record),
    addFieldsAux rep records (l1 ++ l2) =
      match addFieldsAux rep records l1 with
      | Except.error e => Except.error e
      | Except.ok recs2 => addFieldsAux rep recs2 l2 := by
  intro l1
  induction l1 with
  | nil => intro l2 records; rfl
  | cons fld rest ih =>
    intro l2 records
    simp only [List.cons_append, addFieldsAux]
    by_cases hb : fld ∈ baseFields
    · rw [if_pos hb, if_pos hb]
      exact ih l2 records
    · rw [if_neg hb, if_neg hb]
      cases hdf : dictFind rep.addMethods ("add_" ++ fld) with
      | none => simp only [hdf]
      | some mth =>
        simp only [hdf]
        cases hmr : mth records with
        | error e => simp only [hmr]
        | ok recs2 => simp only [hmr]; exact ih l2 recs2

/-- add_fields_missing: when every include field before fld goes through, fld
is outside the base set and has no add_fld method, field augmentation fails
with the AttributeError naming add_fld. -/
theorem add_fields_missing (rep : Report) (records : List Record) (pre : List String)
    (fld : String) (post : List String) (recs0 : List Record)
    (hinc : rep.includeFields = pre ++ fld :: post) (hnb : fld ∉ baseFields)
    (hno : dictFind rep.addMethods ("add_" ++ fld) = none)
    (hpre : addFieldsAux rep records pre = Except.ok recs0) :
    rep.add_fields records = Except.error (PyErr.attributeError (missingFieldMsg fld)) := by
  unfold Report.add_fields
  rw [hinc, addFieldsAux_append, hpre]
  show addFieldsAux rep recs0 (fld :: post) = _
  simp only [addFieldsAux]
  rw [if_neg hnb, hno]

/-- add_fields_all_present: when every non-base include field has its add_*
method and every method succeeds on every input, field augmentation raises no
error at all. -/
theorem add_fields_all_present :
    ∀ (fields : List String) (rep : Report) (records : List Record),
      (∀ fld ∈ fields, fld ∉ baseFields →
        ∃ mth, dictFind rep.addMethods ("add_" ++ fld) = some mth) →
      (∀ p ∈ rep.addMethods, ∀ rs, ∃ rs2, p.2 rs = Except.ok rs2) →
      ∃ recs2, addFieldsAux rep records fields = Except.ok recs2 := by
  intro fields
  induction fields with
  | nil => intro rep records _ _; exact ⟨records, rfl⟩
  | cons fld rest ih =>
    intro rep records hmeth htot
    simp only [addFieldsAux]
    by_cases hb : fld ∈ baseFields
    · rw [if_pos hb]
      exact ih rep records (fun x hx hnb => hmeth x (List.mem_cons_of_mem fld hx) hnb) htot
    · rw [if_neg hb]
      obtain ⟨mth, hm⟩ := hmeth fld (List.mem_cons_self fld rest) hb
      obtain ⟨rs2, hrs2⟩ := htot ("add_" ++ fld, mth) (dictFind_some_mem hm) records
      have hrs2b : mth records = Except.ok rs2 := hrs2
      simp only [hm, hrs2b]
      exact ih rep rs2 (fun x hx hnb => hmeth x (List.mem_cons_of_mem fld hx) hnb) htot

/-- C4: capability resolution. (1) An aggregate kind with no add_* method on
the Group makes construction fail with an AttributeError naming add_kind,
once the earlier addons went through; (2) when every requested kind has its
method, that error is never raised; (3) an include field outside the base set
with no add_* method on the Report makes add_fields fail with an
AttributeError naming add_field, once the earlier fields went through;
(4) when every requested method exists (and the methods themselves succeed),
no error is raised. -/
theorem C4 :
    (∀ (nm : Value) (records : List Record) (pre : List (String × String)) (m fld : String)
        (post : List (String × String)) (g0 : Group),
      m ≠ "total" → Group.init nm records pre = Except.ok g0 →
      Group.init nm records (pre ++ (m, fld) :: post) =
        Except.error (PyErr.attributeError (ghostMsg m))) ∧
    (∀ (nm : Value) (records : List Record) (addons : List (String × String)),
      (∀ p ∈ addons, p.1 = "total") →
      ∀ m, Group.init nm records addons ≠ Except.error (PyErr.attributeError (ghostMsg m))) ∧
    (∀ (rep : Report) (records : List Record) (pre : List String) (fld : String)
        (post : List String) (recs0 : List Record),
      rep.includeFields = pre ++ fld :: post → fld ∉ baseFields →
      dictFind rep.addMethods ("add_" ++ fld) = none →
      addFieldsAux rep records pre = Except.ok recs0 →
      rep.add_fields records = Except.error (PyErr.attributeError (missingFieldMsg fld))) ∧
    (∀ (rep : Report) (records : List Record),
      (∀ fld ∈ rep.includeFields, fld ∉ baseFields →
        ∃ mth, dictFind rep.addMethods ("add_" ++ fld) = some mth) →
      (∀ p ∈ rep.addMethods, ∀ rs, ∃ rs2, p.2 rs = Except.ok rs2) →
      ∃ recs2, rep.add_fields records = Except.ok recs2) :=
  ⟨init_ghost_first, init_no_ghost, add_fields_missing,
    fun rep records hmeth htot => add_fields_all_present rep.includeFields rep records hmeth htot⟩

/-- c4rep1 is a Report configuration requesting the field bonus with no
add_bonus method. -/
def c4rep1 : Report :=
  { groupby := "department"
    addons := []
    includeFields := ["bonus"]
    addMethods := [] }

/-- c4rep2 is a Report configuration whose include list needs no add_*
method. -/
def c4rep2 : Report :=
  { groupby := "department"
    addons := []
    includeFields := ["name"]
    addMethods := [] }

theorem C4_witness :
    Group.init (Value.str "X") [] [("sum", "hours")] =
      Except.error (PyErr.attributeError (ghostMsg "sum")) ∧
    Group.init (Value.str "X") [] [("total", "hours")] ≠
      Except.error (PyErr.attributeError (ghostMsg "sum")) ∧
    c4rep1.add_fields [] = Except.error (PyErr.attributeError (missingFieldMsg "bonus")) ∧
    ∃ recs2, c4rep2.add_fields [] = Except.ok recs2 := by
  refine ⟨?_, ?_, ?_, ?_⟩
  · exact C4.1 (Value.str "X") [] [] "sum" "hours" []
      { name := Value.str "X", records := [], addons := [], aggs := [] } (by decide) rfl
  · exact C4.2.1 (Value.str "X") [] [("total", "hours")] (by decide) "sum"
  · exact C4.2.2.1 c4rep1 [] [] "bonus" [] [] rfl (by decide) rfl rfl
  · exact C4.2.2.2 c4rep2 []
      (fun fld hf hnb => absurd (by rw [List.mem_singleton.mp hf]; decide) hnb)
      (fun p hp _ => absurd hp (List.not_mem_nil p))

/-- numVal reads the numeric value of a pipeline value as an exact rational
(none for strings). -/
def numVal : Value → Option ℚ
  | Value.int n => some (Rat.ofInt n)
  | Value.float q => some q
  | Value.str _ => none

/-- fieldNumQ reads the numeric value of a field of a record (none when the
attribute is missing or non-numeric). -/
def fieldNumQ (r : Record) (fld : String) : Option ℚ :=
  match r.getattr fld with
  | Except.ok v => numVal v
  | Except.error _ => none

theorem vadd_num {a b : Value} {qa qb : ℚ} (ha : numVal a = some qa)
    (hb : numVal b = some qb) :
    ∃ c, vadd a b = Except.ok c ∧ numVal c = some (qa + qb) := by
  cases a <;> cases b <;> simp [numVal] at ha hb
  case int.int n m =>
    refine ⟨Value.int (n + m), rfl, ?_⟩
    simp [numVal, ← ha, ← hb, Rat.ofInt_eq_cast]
  case int.float n q =>
    refine ⟨Value.float (Rat.ofInt n + q), rfl, ?_⟩
    simp [numVal, ← ha, ← hb]
  case float.int q n =>
    refine ⟨Value.float (q + Rat.ofInt n), rfl, ?_⟩
    simp [numVal, ← ha, ← hb]
  case float.float p q =>
    refine ⟨Value.float (p + q), rfl, ?_⟩
    simp [numVal, ← ha, ← hb]

theorem add_total_ok : ∀ {records : List Record} {fld : String},
    (∀ r ∈ records, ∃ q, fieldNumQ r fld = some q) →
    ∀ {acc : Value} {qa : ℚ}, numVal acc = some qa →
    ∃ v, exFoldl (fun acc r =>
        match Record.getattr r fld with
        | Except.error e => Except.error e
        | Except.ok v => vadd acc v) acc records = Except.ok v ∧
      numVal v = some (qa + (records.filterMap (fun r => fieldNumQ r fld)).sum) := by
  intro records
  induction records with
  | nil =>
    intro fld _ acc qa ha
    exact ⟨acc, rfl, by rw [ha]; simp⟩
  | cons r rest ih =>
    intro fld h acc qa ha
    obtain ⟨q, hq⟩ := h r (List.mem_cons_self r rest)
    unfold fieldNumQ at hq
    cases hg : Record.getattr r fld with
    | error e => rw [hg] at hq; cases hq
    | ok v =>
      rw [hg] at hq
      obtain ⟨c, hc, hcn⟩ := vadd_num ha hq
      obtain ⟨vfin, hrun, hnum⟩ := ih (fun x hx => h x (List.mem_cons_of_mem r hx)) hcn
      refine ⟨vfin, ?_, ?_⟩
      · unfold exFoldl
        simp only [hg, hc]
        exact hrun
      · rw [hnum]
        have hfq : fieldNumQ r fld = some q := by unfold fieldNumQ; rw [hg]; exact hq
        have hfm : (List.filterMap (fun r => fieldNumQ r fld) (r :: rest)) =
            q :: List.filterMap (fun r => fieldNumQ r fld) rest := by
          rw [List.filterMap_cons, hfq]
        rw [hfm, List.sum_cons, add_assoc]

/-- C6: the total aggregate. When every member record carries a numeric value
for the field, the aggregate stored under total_field is the arithmetic sum of
that field over exactly the member records; a Group built from an empty record
list stores total_field = 0. -/
theorem C6 : ∀ (nm : Value) (records : List Record) (fld : String),
    ((∀ r ∈ records, ∃ q, fieldNumQ r fld = some q) →
      ∃ g v, Group.init nm records [("total", fld)] = Except.ok g ∧
        dictFind g.aggs ("total_" ++ fld) = some v ∧
        numVal v = some ((records.filterMap (fun r => fieldNumQ r fld)).sum)) ∧
    (∃ g, Group.init nm [] [("total", fld)] = Except.ok g ∧
      dictFind g.aggs ("total_" ++ fld) = some (Value.int 0)) := by
  intro nm records fld
  constructor
  · intro h
    obtain ⟨v, hrun, hnum⟩ := add_total_ok h (show numVal (Value.int 0) = some 0 by decide)
    have hat : add_total records fld = Except.ok v := hrun
    refine ⟨⟨nm, records, [("total", fld)], [("total_" ++ fld, v)]⟩, v, ?_, ?_, ?_⟩
    · simp [Group.init, exFoldl, hat, dictSet]
    · simp [dictFind]
    · rw [hnum]
      simp
  · refine ⟨_, rfl, ?_⟩
    simp [dictFind]

theorem C6_witness :
    (∀ r ∈ [Record.make (Value.int 1) (Value.str "HR") (Value.str "x") (Value.str "A")
        (Value.int 10) (Value.int 50),
      Record.make (Value.int 2) (Value.str "HR") (Value.str "y") (Value.str "B")
        (Value.int 5) (Value.int 40)], ∃ q, fieldNumQ r "hours" = some q) ∧
    (∃ g v, Group.init (Value.str "HR")
        [Record.make (Value.int 1) (Value.str "HR") (Value.str "x") (Value.str "A")
          (Value.int 10) (Value.int 50),
         Record.make (Value.int 2) (Value.str "HR") (Value.str "y") (Value.str "B")
          (Value.int 5) (Value.int 40)] [("total", "hours")] = Except.ok g ∧
      dictFind g.aggs ("total_" ++ "hours") = some v ∧
      numVal v = some (([Record.make (Value.int 1) (Value.str "HR") (Value.str "x")
          (Value.str "A") (Value.int 10) (Value.int 50),
        Record.make (Value.int 2) (Value.str "HR") (Value.str "y") (Value.str "B")
          (Value.int 5) (Value.int 40)].filterMap (fun r => fieldNumQ r "hours")).sum)) ∧
    (∃ g, Group.init (Value.str "E") [] [("total", "payout")] = Except.ok g ∧
      dictFind g.aggs ("total_" ++ "payout") = some (Value.int 0)) := by
  refine ⟨?_, ?_, ?_⟩
  · intro r hr
    cases hr with
    | head => exact ⟨Rat.ofInt 10, by decide⟩
    | tail _ hr2 =>
      cases hr2 with
      | head => exact ⟨Rat.ofInt 5, by decide⟩
      | tail _ hr3 => cases hr3
  · exact (C6 (Value.str "HR") _ "hours").1 (by
      intro r hr
      cases hr with
      | head => exact ⟨Rat.ofInt 10, by decide⟩
      | tail _ hr2 =>
        cases hr2 with
        | head => exact ⟨Rat.ofInt 5, by decide⟩
        | tail _ hr3 => cases hr3)
  · exact (C6 (Value.str "E") [] "payout").2

theorem dictSet_fst_map {α β : Type} [DecidableEq α] (d : List (α × β)) (k : α) (v : β) :
    (d.map (fun p => if p.1 = k then (k, v) else p)).map Prod.fst = d.map Prod.fst := by
  rw [List.map_map]
  apply List.map_congr_left
  intro p _
  by_cases hpk : p.1 = k
  · simp [hpk]
  · simp [hpk]

theorem dictSet_idem {α β : Type} [DecidableEq α] (d : List (α × β)) (k : α) (v : β) :
    dictSet (dictSet d k v) k v = dictSet d k v := by
  unfold dictSet
  by_cases hk : k ∈ d.map Prod.fst
  · rw [if_pos hk, if_pos (by rw [dictSet_fst_map]; exact hk), List.map_map]
    apply List.map_congr_left
    intro p _
    by_cases hpk : p.1 = k
    · simp [hpk]
    · simp [hpk]
  · rw [if_neg hk, if_pos (by simp), List.map_append]
    have hd : d.map (fun p => if p.1 = k then (k, v) else p) = d := by
      conv_rhs => rw [← List.map_id d]
      apply List.map_congr_left
      intro p hp
      have hpk : p.1 ≠ k := fun h => hk (h ▸ List.mem_map_of_mem Prod.fst hp)
      simp [hpk]
    rw [hd]
    simp

theorem setattr_payout_hours (r : Record) (v : Value) :
    (r.setattr "payout" v).hours = r.hours := rfl

theorem setattr_payout_rate (r : Record) (v : Value) :
    (r.setattr "payout" v).rate = r.rate := rfl

theorem setattr_payout_twice (r : Record) (v : Value) :
    (r.setattr "payout" v).setattr "payout" v = r.setattr "payout" v := by
  show ({ r with attrs := dictSet (dictSet r.attrs "payout" v) "payout" v } : Record) =
    { r with attrs := dictSet r.attrs "payout" v }
  rw [dictSet_idem]

theorem add_payout_idem : ∀ {records recs2 : List Record},
    add_payout records = Except.ok recs2 → add_payout recs2 = Except.ok recs2 := by
  intro records
  induction records with
  | nil =>
    intro recs2 h
    injection h with h2
    rw [← h2]
    rfl
  | cons r rest ih =>
    intro recs2 h
    unfold add_payout exList at h
    cases hv : vmul r.hours r.rate with
    | error e => rw [hv] at h; exact Except.noConfusion h
    | ok p =>
      rw [hv] at h
      cases hrest : exList (fun r =>
          match vmul r.hours r.rate with
          | Except.error e => Except.error e
          | Except.ok p => Except.ok (r.setattr "payout" p)) rest with
      | error e => rw [hrest] at h; exact Except.noConfusion h
      | ok rs =>
        rw [hrest] at h
        injection h with h2
        rw [← h2]
        have hih : add_payout rs = Except.ok rs := ih hrest
        have hv1 : vmul (r.setattr "payout" p).hours (r.setattr "payout" p).rate =
            Except.ok p := by
          rw [setattr_payout_hours, setattr_payout_rate]; exact hv
        unfold add_payout exList
        rw [hv1]
        have hih2 : exList (fun r =>
            match vmul r.hours r.rate with
            | Except.error e => Except.error e
            | Except.ok p => Except.ok (r.setattr "payout" p)) rs = Except.ok rs := hih
        simp only [hih2, setattr_payout_twice]

/-- C10: idempotence of the payout report. Augmentation mutates the input
records in place, so a second create call on the same list operates on the
augmented records; since payout is recomputed from the unmodified hours and
rate, the second call overwrites payout with the same value and produces the
same Review (both calls agree even when they fail). -/
theorem C10 : ∀ (records recs2 : List Record),
    PayoutReport.add_fields records = Except.ok recs2 →
    Report.create PayoutReport recs2 = Report.create PayoutReport records := by
  intro records recs2 h
  have hmatch : ∀ rs : List Record, PayoutReport.add_fields rs =
      match add_payout rs with
      | Except.error e => Except.error e
      | Except.ok r2 => Except.ok r2 := fun rs => rfl
  have hap : add_payout records = Except.ok recs2 := by
    rw [hmatch records] at h
    cases hv : add_payout records with
    | error e => rw [hv] at h; exact Except.noConfusion h
    | ok r2 =>
      rw [hv] at h
      injection h with h2
      rw [h2]
  have hidem : add_payout recs2 = Except.ok recs2 := add_payout_idem hap
  unfold Report.create
  rw [h, hmatch recs2, hidem]

theorem C10_witness :
    PayoutReport.add_fields
      [Record.make (Value.int 1) (Value.str "HR") (Value.str "a@x") (Value.str "Anna")
        (Value.int 10) (Value.int 50)] =
      Except.ok [(Record.make (Value.int 1) (Value.str "HR") (Value.str "a@x")
        (Value.str "Anna") (Value.int 10) (Value.int 50)).setattr "payout" (Value.int 500)] ∧
    Report.create PayoutReport
      [(Record.make (Value.int 1) (Value.str "HR") (Value.str "a@x") (Value.str "Anna")
        (Value.int 10) (Value.int 50)).setattr "payout" (Value.int 500)] =
      Report.create PayoutReport
        [Record.make (Value.int 1) (Value.str "HR") (Value.str "a@x") (Value.str "Anna")
          (Value.int 10) (Value.int 50)] := by
  refine ⟨by decide, ?_⟩
  exact C10 _ _ (by decide)

theorem vmul_num {a b : Value} {qa qb : ℚ} (ha : numVal a = some qa)
    (hb : numVal b = some qb) :
    ∃ c, vmul a b = Except.ok c ∧ numVal c = some (qa * qb) := by
  cases a <;> cases b <;> simp [numVal] at ha hb
  case int.int n m =>
    refine ⟨Value.int (n * m), rfl, ?_⟩
    simp [numVal, ← ha, ← hb, Rat.ofInt_eq_cast]
  case int.float n q =>
    refine ⟨Value.float (Rat.ofInt n * q), rfl, ?_⟩
    simp [numVal, ← ha, ← hb]
  case float.int q n =>
    refine ⟨Value.float (q * Rat.ofInt n), rfl, ?_⟩
    simp [numVal, ← ha, ← hb]
  case float.float p q =>
    refine ⟨Value.float (p * q), rfl, ?_⟩
    simp [numVal, ← ha, ← hb]

theorem to_number_default_num (v : Value) :
    ∃ q, numVal (to_number v (some (Value.int 0))) = some q := by
  unfold to_number
  cases hp : pyFloat v with
  | some q =>
    simp only [hp]
    by_cases hden : q.den = 1
    · rw [if_pos hden]; exact ⟨Rat.ofInt q.num, rfl⟩
    · rw [if_neg hden]; exact ⟨q, rfl⟩
  | none => simp only [hp]; exact ⟨Rat.ofInt 0, rfl⟩

theorem make_hours_num (a b c d e f : Value) :
    ∃ q, numVal (Record.make a b c d e f).hours = some q :=
  to_number_default_num e

theorem make_rate_num (a b c d e f : Value) :
    ∃ q, numVal (Record.make a b c d e f).rate = some q :=
  to_number_default_num f

theorem add_payout_ok : ∀ (records : List Record),
    (∀ r ∈ records, r.attrs = [] ∧ (∃ q, numVal r.hours = some q) ∧
      (∃ q, numVal r.rate = some q)) →
    ∃ recs2, add_payout records = Except.ok recs2 ∧
      ∀ r2 ∈ recs2, (∃ q, fieldNumQ r2 "hours" = some q) ∧
        (∃ q, fieldNumQ r2 "payout" = some q) := by
  intro records
  induction records with
  | nil => exact fun _ => ⟨[], rfl, fun r2 h => absurd h (List.not_mem_nil r2)⟩
  | cons r rest ih =>
    intro h
    obtain ⟨hattrs, ⟨qh, hqh⟩, ⟨qr, hqr⟩⟩ := h r (List.mem_cons_self r rest)
    obtain ⟨p, hp, hpn⟩ := vmul_num hqh hqr
    obtain ⟨rs, hrs, hprop⟩ := ih (fun x hx => h x (List.mem_cons_of_mem r hx))
    have hrs2 : exList (fun r =>
        match vmul r.hours r.rate with
        | Except.error e => Except.error e
        | Except.ok p => Except.ok (r.setattr "payout" p)) rest = Except.ok rs := hrs
    refine ⟨r.setattr "payout" p :: rs, ?_, ?_⟩
    · unfold add_payout exList
      rw [hp]
      simp only [hrs2]
    · intro r2 hr2
      cases hr2 with
      | tail _ hmem => exact hprop r2 hmem
      | head =>
        constructor
        · exact ⟨qh, by
            have : fieldNumQ (r.setattr "payout" p) "hours" = numVal r.hours := rfl
            rw [this, hqh]⟩
        · refine ⟨qh * qr, ?_⟩
          have hlook : fieldNumQ (r.setattr "payout" p) "payout" = numVal p := by
            unfold fieldNumQ Record.getattr Record.setattr
            rw [hattrs]
            rfl
          rw [hlook, hpn]

theorem exFoldl_pure {σ α : Type} {f : σ → α → Except PyErr σ} {g : σ → α → σ}
    (hfg : ∀ acc x, f acc x = Except.ok (g acc x)) :
    ∀ (l : List α) (d : σ), exFoldl f d l = Except.ok (l.foldl g d) := by
  intro l
  induction l with
  | nil => intro d; rfl
  | cons a as ih =>
    intro d
    unfold exFoldl
    rw [hfg d a]
    exact ih (g d a)

theorem dictAppend_member {acc : List (Value × List Record)} {k : Value} {r x : Record}
    {p : Value × List Record} (hp : p ∈ dictAppend acc k r) (hx : x ∈ p.2) :
    (∃ p0 ∈ acc, x ∈ p0.2) ∨ x = r := by
  unfold dictAppend at hp
  by_cases hk : k ∈ acc.map Prod.fst
  · rw [if_pos hk] at hp
    obtain ⟨p0, hp0, hfp⟩ := List.mem_map.mp hp
    by_cases hp0k : p0.1 = k
    · rw [if_pos hp0k] at hfp
      rw [← hfp] at hx
      cases List.mem_append.mp hx with
      | inl h2 => exact Or.inl ⟨p0, hp0, h2⟩
      | inr h2 => exact Or.inr (List.mem_singleton.mp h2)
    · rw [if_neg hp0k] at hfp
      rw [← hfp] at hx
      exact Or.inl ⟨p0, hp0, hx⟩
  · rw [if_neg hk] at hp
    cases List.mem_append.mp hp with
    | inl h2 => exact Or.inl ⟨p, h2, hx⟩
    | inr h2 =>
      rw [List.mem_singleton.mp h2] at hx
      exact Or.inr (List.mem_singleton.mp hx)

theorem foldl_dictAppend_member {key : Record → Value} :
    ∀ (l : List Record) (acc : List (Value × List Record)) {p : Value × List Record}
      {x : Record},
      p ∈ l.foldl (fun acc r => dictAppend acc (key r) r) acc → x ∈ p.2 →
      (∃ p0 ∈ acc, x ∈ p0.2) ∨ x ∈ l := by
  intro l
  induction l with
  | nil => intro acc p x hp hx; exact Or.inl ⟨p, hp, hx⟩
  | cons r rest ih =>
    intro acc p x hp hx
    cases ih (dictAppend acc (key r) r) hp hx with
    | inl h =>
      obtain ⟨p0, hp0, hx0⟩ := h
      cases dictAppend_member hp0 hx0 with
      | inl h2 => exact Or.inl h2
      | inr h2 => exact Or.inr (by rw [h2]; exact List.mem_cons_self r rest)
    | inr h => exact Or.inr (List.mem_cons_of_mem r h)

theorem init_fold_ok : ∀ (addons : List (String × String)) (mem : List Record),
    (∀ a ∈ addons, a.1 = "total" ∧ ∀ r ∈ mem, ∃ q, fieldNumQ r a.2 = some q) →
    ∀ aggs, ∃ out, exFoldl (fun aggs mf =>
      if mf.1 = "total" then
        match add_total mem mf.2 with
        | Except.error e => Except.error e
        | Except.ok v => Except.ok (dictSet aggs (mf.1 ++ "_" ++ mf.2) v)
      else Except.error (PyErr.attributeError (ghostMsg mf.1))) aggs addons =
      Except.ok out := by
  intro addons
  induction addons with
  | nil => intro mem _ aggs; exact ⟨aggs, rfl⟩
  | cons a rest ih =>
    intro mem h aggs
    obtain ⟨hk, hnum⟩ := h a (List.mem_cons_self a rest)
    obtain ⟨v, hrun, _⟩ := add_total_ok hnum (show numVal (Value.int 0) = some 0 by decide)
    have hat : add_total mem a.2 = Except.ok v := hrun
    obtain ⟨out, hout⟩ := ih mem (fun x hx => h x (List.mem_cons_of_mem a hx))
      (dictSet aggs (a.1 ++ "_" ++ a.2) v)
    refine ⟨out, ?_⟩
    simp only [exFoldl]
    rw [if_pos hk, hat]
    exact hout

theorem init_ok_of_all_numeric (addons : List (String × String)) (nm : Value)
    (mem : List Record)
    (h : ∀ a ∈ addons, a.1 = "total" ∧ ∀ r ∈ mem, ∃ q, fieldNumQ r a.2 = some q) :
    ∃ g, Group.init nm mem addons = Except.ok g := by
  obtain ⟨out, hout⟩ := init_fold_ok addons mem h []
  exact ⟨_, by unfold Group.init; rw [hout]⟩

/-- payout_add_fields_eq: for the payout report the non-base include fields
reduce to the single add_payout invocation. -/
theorem payout_add_fields_eq (rs : List Record) :
    PayoutReport.add_fields rs =
      match add_payout rs with
      | Except.error e => Except.error e
      | Except.ok r2 => Except.ok r2 := rfl

theorem add_total_missing : ∀ {records : List Record} {fld : String},
    (∀ r ∈ records, (∃ q, fieldNumQ r fld = some q) ∨
      Record.getattr r fld = Except.error (PyErr.attributeError (noAttrMsg "Record" fld))) →
    (∃ r ∈ records, ∀ v, Record.getattr r fld ≠ Except.ok v) →
    ∀ {acc : Value} {qa : ℚ}, numVal acc = some qa →
    exFoldl (fun acc r =>
      match Record.getattr r fld with
      | Except.error e => Except.error e
      | Except.ok v => vadd acc v) acc records =
      Except.error (PyErr.attributeError (noAttrMsg "Record" fld)) := by
  intro records
  induction records with
  | nil =>
    intro fld _ hex acc qa _
    obtain ⟨r, hr, _⟩ := hex
    cases hr
  | cons r rest ih =>
    intro fld hall hex acc qa ha
    cases hall r (List.mem_cons_self r rest) with
    | inr herr => simp only [exFoldl, herr]
    | inl hnum =>
      obtain ⟨q, hq⟩ := hnum
      unfold fieldNumQ at hq
      cases hg : Record.getattr r fld with
      | error e => rw [hg] at hq; cases hq
      | ok v =>
        rw [hg] at hq
        obtain ⟨c, hc, hcn⟩ := vadd_num ha hq
        obtain ⟨r2, hr2, hbad⟩ := hex
        have hr2rest : r2 ∈ rest := by
          cases hr2 with
          | head => exact absurd hg (hbad v)
          | tail _ h2 => exact h2
        have hrec := ih (fun x hx => hall x (List.mem_cons_of_mem r hx))
          ⟨r2, hr2rest, hbad⟩ hcn
        simp only [exFoldl, hg, hc]
        exact hrec

/-- C9: aggregating a field some member record lacks makes Group construction
fail with the propagated attribute-lookup error (no Group value is produced);
and the payout report's create establishes the precondition of its own Group
constructions by augmenting before grouping, so create succeeds on every list
of freshly constructed Records. -/
theorem C9 :
    (∀ (nm : Value) (records : List Record) (fld : String),
      (∀ r ∈ records, (∃ q, fieldNumQ r fld = some q) ∨
        Record.getattr r fld = Except.error (PyErr.attributeError (noAttrMsg "Record" fld))) →
      (∃ r ∈ records, ∀ v, Record.getattr r fld ≠ Except.ok v) →
      Group.init nm records [("total", fld)] =
        Except.error (PyErr.attributeError (noAttrMsg "Record" fld))) ∧
    (∀ raws : List (Value × Value × Value × Value × Value × Value),
      ∃ review, Report.create PayoutReport
        (raws.map (fun t => Record.make t.1 t.2.1 t.2.2.1 t.2.2.2.1 t.2.2.2.2.1 t.2.2.2.2.2)) =
        Except.ok review) := by
  constructor
  · intro nm records fld hall hex
    have hat : add_total records fld =
        Except.error (PyErr.attributeError (noAttrMsg "Record" fld)) :=
      add_total_missing hall hex (show numVal (Value.int 0) = some 0 by decide)
    simp [Group.init, exFoldl, hat]
  · intro raws
    have hrecs : ∀ r ∈ raws.map (fun t =>
        Record.make t.1 t.2.1 t.2.2.1 t.2.2.2.1 t.2.2.2.2.1 t.2.2.2.2.2),
        r.attrs = [] ∧ (∃ q, numVal r.hours = some q) ∧ (∃ q, numVal r.rate = some q) := by
      intro r hr
      obtain ⟨t, _, ht⟩ := List.mem_map.mp hr
      rw [← ht]
      exact ⟨rfl, make_hours_num _ _ _ _ _ _, make_rate_num _ _ _ _ _ _⟩
    obtain ⟨recs2, hap, hprop⟩ := add_payout_ok _ hrecs
    have haf : PayoutReport.add_fields (raws.map (fun t =>
        Record.make t.1 t.2.1 t.2.2.1 t.2.2.2.1 t.2.2.2.2.1 t.2.2.2.2.2)) =
        Except.ok recs2 := by
      rw [payout_add_fields_eq, hap]
    have hfold : exFoldl (fun acc r =>
        match Record.getattr r PayoutReport.groupby with
        | Except.error e => Except.error e
        | Except.ok k => Except.ok (dictAppend acc k r)) [] recs2 =
        Except.ok (recs2.foldl (fun acc r => dictAppend acc r.department r) []) :=
      exFoldl_pure (fun acc x => rfl) recs2 []
    have hmem : ∀ p ∈ recs2.foldl (fun acc r => dictAppend acc r.department r) [],
        ∀ r ∈ p.2, (∃ q, fieldNumQ r "hours" = some q) ∧
          (∃ q, fieldNumQ r "payout" = some q) := by
      intro p hp r hr
      cases foldl_dictAppend_member recs2 [] hp hr with
      | inl h =>
        obtain ⟨p0, hp0, _⟩ := h
        cases hp0
      | inr h => exact hprop r h
    have hinit : ∀ p ∈ recs2.foldl (fun acc r => dictAppend acc r.department r) [],
        ∃ g, Group.init p.1 p.2 PayoutReport.addons = Except.ok g := by
      intro p hp
      apply init_ok_of_all_numeric
      intro a ha
      cases ha with
      | head => exact ⟨rfl, fun r hr => (hmem p hp r hr).1⟩
      | tail _ h2 =>
        cases h2 with
        | head => exact ⟨rfl, fun r hr => (hmem p hp r hr).2⟩
        | tail _ h3 => cases h3
    obtain ⟨gs, hgs⟩ := exList_ok_of_forall hinit
    refine ⟨⟨gs, PayoutReport.includeFields⟩, ?_⟩
    have hproc : PayoutReport.process recs2 = Except.ok gs := by
      unfold Report.process
      rw [hfold]
      exact hgs
    unfold Report.create
    rw [haf]
    simp only [hproc]

theorem C9_witness :
    Group.init (Value.str "HR")
      [Record.make (Value.int 1) (Value.str "HR") (Value.str "x") (Value.str "A")
        (Value.int 2) (Value.int 3)] [("total", "salary")] =
      Except.error (PyErr.attributeError (noAttrMsg "Record" "salary")) ∧
    ∃ review, Report.create PayoutReport
      ([(Value.int 1, Value.str "HR", Value.str "x", Value.str "A", Value.int 2,
        Value.int 3)].map (fun t =>
          Record.make t.1 t.2.1 t.2.2.1 t.2.2.2.1 t.2.2.2.2.1 t.2.2.2.2.2)) =
      Except.ok review := by
  constructor
  · have hval : Record.getattr (Record.make (Value.int 1) (Value.str "HR") (Value.str "x")
        (Value.str "A") (Value.int 2) (Value.int 3)) "salary" =
        Except.error (PyErr.attributeError (noAttrMsg "Record" "salary")) := by decide
    exact C9.1 (Value.str "HR") _ "salary"
      (fun r hr => Or.inr (by rw [List.mem_singleton.mp hr]; exact hval))
      ⟨_, List.mem_singleton_self _, fun v h => Except.noConfusion (hval.symm.trans h)⟩
  · exact C9.2 [(Value.int 1, Value.str "HR", Value.str "x", Value.str "A", Value.int 2,
      Value.int 3)]

/-- firstSeen lists the distinct elements of a list in the order of their
first occurrence; it is the specification-side notion used to state the
group-ordering claim. -/
def firstSeen {α : Type} [DecidableEq α] (l : List α) : List α :=
  l.foldl (fun ks k => if k ∈ ks then ks else ks ++ [k]) []

/-- entryGet reads the bucket of a key out of the grouped association list
(empty when absent). -/
def entryGet (d : List (Value × List Record)) (k : Value) : List Record :=
  (dictFind d k).getD []

theorem dictFind_not_mem {α β : Type} [DecidableEq α] :
    ∀ {d : List (α × β)} {k : α}, k ∉ d.map Prod.fst → dictFind d k = none := by
  intro d
  induction d with
  | nil => intro k _; rfl
  | cons p ps ih =>
    intro k h
    have hpk : p.1 ≠ k := by
      intro he
      exact h (by rw [← he]; exact List.mem_map_of_mem Prod.fst (List.mem_cons_self p ps))
    unfold dictFind
    rw [if_neg hpk]
    exact ih (fun hk => h (List.mem_cons_of_mem p.1 hk))

theorem dictFind_append {α β : Type} [DecidableEq α] :
    ∀ (d1 d2 : List (α × β)) (k : α),
      dictFind (d1 ++ d2) k =
        match dictFind d1 k with
        | some v => some v
        | none => dictFind d2 k := by
  intro d1
  induction d1 with
  | nil => intro d2 k; rfl
  | cons p ps ih =>
    intro d2 k
    by_cases hpk : p.1 = k
    · simp only [List.cons_append, dictFind, if_pos hpk]
    · simp only [List.cons_append, dictFind, if_neg hpk]
      exact ih d2 k

theorem dictFind_update_map {k : Value} {r : Record} :
    ∀ (d : List (Value × List Record)) (k' : Value),
      dictFind (d.map (fun p => if p.1 = k then (p.1, p.2 ++ [r]) else p)) k' =
        if k' = k then (dictFind d k').map (fun l => l ++ [r]) else dictFind d k' := by
  intro d
  induction d with
  | nil =>
    intro k'
    by_cases h : k' = k
    · rw [if_pos h]; rfl
    · rw [if_neg h]; rfl
  | cons p ps ih =>
    intro k'
    simp only [List.map_cons]
    by_cases hpk : p.1 = k
    · by_cases hp' : p.1 = k'
      · have hk'k : k' = k := by rw [← hp', hpk]
        simp only [dictFind, if_pos hpk, if_pos hp', if_pos hk'k, Option.map_some']
      · have hk'k : k' ≠ k := fun he => hp' (by rw [hpk, ← he])
        simp only [dictFind, if_pos hpk, if_neg hp', if_neg hk'k]
        rw [ih k', if_neg hk'k]
    · by_cases hp' : p.1 = k'
      · have hk'k : k' ≠ k := fun he => hpk (by rw [hp', he])
        simp only [dictFind, if_neg hpk, if_pos hp', if_neg hk'k]
      · simp only [dictFind, if_neg hpk, if_neg hp']
        exact ih k'

theorem dictAppend_fst (d : List (Value × List Record)) (k : Value) (r : Record) :
    (dictAppend d k r).map Prod.fst =
      if k ∈ d.map Prod.fst then d.map Prod.fst else d.map Prod.fst ++ [k] := by
  unfold dictAppend
  by_cases hk : k ∈ d.map Prod.fst
  · rw [if_pos hk, if_pos hk, List.map_map]
    apply List.map_congr_left
    intro p _
    by_cases hpk : p.1 = k
    · simp [hpk]
    · simp [hpk]
  · rw [if_neg hk, if_neg hk]
    simp

theorem dictFind_mem_isSome {α β : Type} [DecidableEq α] :
    ∀ {d : List (α × β)} {k : α}, k ∈ d.map Prod.fst → ∃ v, dictFind d k = some v := by
  intro d
  induction d with
  | nil => intro k h; cases h
  | cons p ps ih =>
    intro k h
    by_cases hpk : p.1 = k
    · exact ⟨p.2, by unfold dictFind; rw [if_pos hpk]⟩
    · have hk : k ∈ ps.map Prod.fst := by
        simp only [List.map_cons] at h
        cases List.mem_cons.mp h with
        | inl he => exact absurd he.symm hpk
        | inr hm => exact hm
      obtain ⟨v, hv⟩ := ih hk
      exact ⟨v, by unfold dictFind; rw [if_neg hpk]; exact hv⟩

theorem dictAppend_entry_same (d : List (Value × List Record)) (k : Value) (r : Record) :
    entryGet (dictAppend d k r) k = entryGet d k ++ [r] := by
  unfold dictAppend entryGet
  by_cases hk : k ∈ d.map Prod.fst
  · rw [if_pos hk, dictFind_update_map d k, if_pos rfl]
    obtain ⟨v, hv⟩ := dictFind_mem_isSome hk
    rw [hv]
    rfl
  · rw [if_neg hk, dictFind_append, dictFind_not_mem hk]
    simp [dictFind]

theorem dictAppend_entry_other (d : List (Value × List Record)) (k : Value) (r : Record)
    (k' : Value) (h : k' ≠ k) : entryGet (dictAppend d k r) k' = entryGet d k' := by
  unfold dictAppend entryGet
  by_cases hk : k ∈ d.map Prod.fst
  · rw [if_pos hk, dictFind_update_map d k', if_neg h]
  · rw [if_neg hk, dictFind_append]
    cases hd : dictFind d k' with
    | some l => rfl
    | none =>
      simp only
      unfold dictFind
      rw [if_neg (fun he => h he.symm)]
      rfl

theorem forall2_mem_right {α β : Type} {R : α → β → Prop} :
    ∀ {l : List α} {ys : List β}, List.Forall₂ R l ys → ∀ y ∈ ys, ∃ x ∈ l, R x y := by
  intro l ys h
  induction h with
  | nil => intro y hy; cases hy
  | cons hab _ ih =>
    intro y hy
    cases List.mem_cons.mp hy with
    | inl he => exact ⟨_, List.mem_cons_self _ _, he ▸ hab⟩
    | inr hm =>
      obtain ⟨x, hx, hr⟩ := ih y hm
      exact ⟨x, List.mem_cons_of_mem _ hx, hr⟩

theorem forall2_maps {α β γ : Type} {R : α → β → Prop} {f : α → γ} {g : β → γ}
    (hfg : ∀ a b, R a b → f a = g b) :
    ∀ {l : List α} {ys : List β}, List.Forall₂ R l ys → l.map f = ys.map g := by
  intro l ys h
  induction h with
  | nil => rfl
  | cons hab _ ih =>
    simp only [List.map_cons]
    rw [hfg _ _ hab, ih]

theorem init_ok_shape {nm : Value} {records : List Record} {addons : List (String × String)}
    {g : Group} (h : Group.init nm records addons = Except.ok g) :
    g.name = nm ∧ g.records = records := by
  unfold Group.init at h
  cases hf : exFoldl (fun aggs mf =>
      if mf.1 = "total" then
        match add_total records mf.2 with
        | Except.error e => Except.error e
        | Except.ok v => Except.ok (dictSet aggs (mf.1 ++ "_" ++ mf.2) v)
      else Except.error (PyErr.attributeError (ghostMsg mf.1))) [] addons with
  | error e => rw [hf] at h; cases h
  | ok aggs =>
    rw [hf] at h
    injection h with h2
    rw [← h2]
    exact ⟨rfl, rfl⟩

theorem grouping_fold_eq {gb : String} :
    ∀ {l : List Record} {ks : List Value},
      List.Forall₂ (fun r k => Record.getattr r gb = Except.ok k) l ks →
      ∀ acc, exFoldl (fun acc r =>
        match Record.getattr r gb with
        | Except.error e => Except.error e
        | Except.ok k => Except.ok (dictAppend acc k r)) acc l =
        Except.ok ((l.zip ks).foldl (fun acc p => dictAppend acc p.2 p.1) acc) := by
  intro l ks h
  induction h with
  | nil => intro acc; rfl
  | cons hab _ ih =>
    intro acc
    simp only [exFoldl, hab, List.zip_cons_cons, List.foldl_cons]
    exact ih _

theorem pfold_keys : ∀ (keyed : List (Record × Value)) (acc : List (Value × List Record)),
    ((keyed.foldl (fun acc p => dictAppend acc p.2 p.1) acc).map Prod.fst) =
      keyed.foldl (fun ks p => if p.2 ∈ ks then ks else ks ++ [p.2]) (acc.map Prod.fst) := by
  intro keyed
  induction keyed with
  | nil => intro acc; rfl
  | cons p ps ih =>
    intro acc
    simp only [List.foldl_cons]
    rw [ih, dictAppend_fst]

theorem foldl_snd {α β γ : Type} (g : γ → β → γ) : ∀ (l : List (α × β)) (i : γ),
    l.foldl (fun acc p => g acc p.2) i = (l.map Prod.snd).foldl g i := by
  intro l
  induction l with
  | nil => intro i; rfl
  | cons p ps ih =>
    intro i
    simp only [List.foldl_cons, List.map_cons]
    exact ih _

theorem firstSeenAcc_nodup {α : Type} [DecidableEq α] :
    ∀ (l : List α) (ks : List α), ks.Nodup →
      (l.foldl (fun ks k => if k ∈ ks then ks else ks ++ [k]) ks).Nodup := by
  intro l
  induction l with
  | nil => intro ks h; exact h
  | cons a as ih =>
    intro ks h
    simp only [List.foldl_cons]
    by_cases ha : a ∈ ks
    · rw [if_pos ha]; exact ih ks h
    · rw [if_neg ha]
      exact ih _ (by simp [List.nodup_append, h, ha])

theorem mem_firstSeenAcc {α : Type} [DecidableEq α] :
    ∀ (l : List α) (ks : List α) (x : α), (x ∈ l ∨ x ∈ ks) →
      x ∈ l.foldl (fun ks k => if k ∈ ks then ks else ks ++ [k]) ks := by
  intro l
  induction l with
  | nil =>
    intro ks x h
    cases h with
    | inl h2 => cases h2
    | inr h2 => exact h2
  | cons a as ih =>
    intro ks x h
    simp only [List.foldl_cons]
    by_cases ha : a ∈ ks
    · rw [if_pos ha]
      apply ih
      cases h with
      | inr h2 => exact Or.inr h2
      | inl h2 =>
        cases List.mem_cons.mp h2 with
        | inl he => exact Or.inr (he ▸ ha)
        | inr hm => exact Or.inl hm
    · rw [if_neg ha]
      apply ih
      cases h with
      | inr h2 => exact Or.inr (List.mem_append_left [a] h2)
      | inl h2 =>
        cases List.mem_cons.mp h2 with
        | inl he => exact Or.inr (by rw [he]; simp)
        | inr hm => exact Or.inl hm

theorem pfold_entry : ∀ (keyed : List (Record × Value)) (acc : List (Value × List Record))
    (k : Value),
    entryGet (keyed.foldl (fun acc p => dictAppend acc p.2 p.1) acc) k =
      entryGet acc k ++ (keyed.filter (fun p => decide (p.2 = k))).map Prod.fst := by
  intro keyed
  induction keyed with
  | nil => intro acc k; simp
  | cons p ps ih =>
    intro acc k
    simp only [List.foldl_cons]
    rw [ih]
    by_cases hpk : p.2 = k
    · have h1 : entryGet (dictAppend acc p.2 p.1) k = entryGet acc k ++ [p.1] := by
        rw [hpk]; exact dictAppend_entry_same acc k p.1
      have h2 : (p :: ps).filter (fun p => decide (p.2 = k)) =
          p :: ps.filter (fun p => decide (p.2 = k)) := by
        simp [List.filter_cons, hpk]
      rw [h1, h2]
      simp [List.append_assoc]
    · have h1 : entryGet (dictAppend acc p.2 p.1) k = entryGet acc k :=
        dictAppend_entry_other acc p.2 p.1 k (fun he => hpk he.symm)
      have h2 : (p :: ps).filter (fun p => decide (p.2 = k)) =
          ps.filter (fun p => decide (p.2 = k)) := by
        simp [List.filter_cons, hpk]
      rw [h1, h2]

theorem dictFind_of_mem_nodup {α β : Type} [DecidableEq α] :
    ∀ {d : List (α × β)} {p : α × β}, (d.map Prod.fst).Nodup → p ∈ d →
      dictFind d p.1 = some p.2 := by
  intro d
  induction d with
  | nil => intro p _ hp; cases hp
  | cons q qs ih =>
    intro p hnd hp
    simp only [List.map_cons, List.nodup_cons] at hnd
    cases List.mem_cons.mp hp with
    | inl he =>
      rw [he]
      unfold dictFind
      rw [if_pos rfl]
    | inr hm =>
      have hq : q.1 ≠ p.1 := by
        intro he
        exact hnd.1 (he ▸ List.mem_map_of_mem Prod.fst hm)
      unfold dictFind
      rw [if_neg hq]
      exact ih hnd.2 hm

theorem zip_filter_eq {gb : String} :
    ∀ {l : List Record} {ks : List Value},
      List.Forall₂ (fun r k => Record.getattr r gb = Except.ok k) l ks →
      ∀ k, ((l.zip ks).filter (fun p => decide (p.2 = k))).map Prod.fst =
        l.filter (fun r => decide (Record.getattr r gb = Except.ok k)) := by
  intro l ks h
  induction h with
  | nil => intro k; rfl
  | @cons a b l2 ks2 hab htail ih =>
    intro k
    simp only [List.zip_cons_cons, List.filter_cons, decide_eq_true_eq]
    by_cases hbk : b = k
    · have h1 : Record.getattr a gb = Except.ok k := by rw [← hbk]; exact hab
      rw [if_pos (show (a, b).2 = k from hbk), if_pos h1]
      simp only [List.map_cons]
      rw [ih k]
    · have h1 : ¬(Record.getattr a gb = Except.ok k) := by
        intro hg
        injection hab.symm.trans hg with h2
        exact hbk h2
      rw [if_neg (show ¬((a, b).2 = k) from hbk), if_neg h1]
      exact ih k

theorem zip_map_snd {gb : String} :
    ∀ {l : List Record} {ks : List Value},
      List.Forall₂ (fun r k => Record.getattr r gb = Except.ok k) l ks →
      (l.zip ks).map Prod.snd = ks := by
  intro l ks h
  induction h with
  | nil => rfl
  | cons _ _ ih => simp only [List.zip_cons_cons, List.map_cons]; rw [ih]

/-- process_char: the full characterization of Report.process. On success the
records have their groupby keys ks (in order), the group names are the keys in
first-occurrence order without duplicates, and each group holds exactly the
records whose key equals its name, in input order. -/
theorem process_char (rep : Report) (records : List Record) (gs : List Group)
    (h : rep.process records = Except.ok gs) :
    ∃ ks, exList (fun r => Record.getattr r rep.groupby) records = Except.ok ks ∧
      gs.map Group.name = firstSeen ks ∧
      (gs.map Group.name).Nodup ∧
      (∀ g ∈ gs, g.records =
        records.filter (fun r => decide (Record.getattr r rep.groupby = Except.ok g.name))) := by
  unfold Report.process at h
  cases hfold : exFoldl (fun acc r =>
      match Record.getattr r rep.groupby with
      | Except.error e => Except.error e
      | Except.ok k => Except.ok (dictAppend acc k r)) [] records with
  | error e => rw [hfold] at h; cases h
  | ok grouped =>
    rw [hfold] at h
    have hkeys : ∀ r ∈ records, ∃ k, Record.getattr r rep.groupby = Except.ok k := by
      intro r hr
      obtain ⟨acc, res, hres⟩ := exFoldl_ok_mem hfold r hr
      cases hg : Record.getattr r rep.groupby with
      | error e => rw [hg] at hres; cases hres
      | ok k => exact ⟨k, rfl⟩
    obtain ⟨ks, hks⟩ := exList_ok_of_forall hkeys
    have hfa : List.Forall₂ (fun r k => Record.getattr r rep.groupby = Except.ok k)
        records ks := exList_ok_forall2 hks
    have hpure := grouping_fold_eq hfa []
    rw [hfold] at hpure
    have hgrp : grouped = (records.zip ks).foldl (fun acc p => dictAppend acc p.2 p.1) [] := by
      injection hpure
    have hgs := exList_ok_forall2 h
    have hnames : grouped.map Prod.fst = gs.map Group.name :=
      @forall2_maps (Value × List Record) Group Value
        (fun kv g => Group.init kv.1 kv.2 rep.addons = Except.ok g) Prod.fst Group.name
        (fun kv g hin => ((init_ok_shape hin).1).symm) grouped gs hgs
    have hkeysfold : grouped.map Prod.fst = firstSeen ks := by
      rw [hgrp, pfold_keys]
      rw [show (([] : List (Value × List Record)).map Prod.fst) = [] from rfl]
      rw [foldl_snd (fun ks k => if k ∈ ks then ks else ks ++ [k]) (records.zip ks) []]
      rw [zip_map_snd hfa]
      rfl
    have hnodup : (grouped.map Prod.fst).Nodup := by
      rw [hkeysfold]
      exact firstSeenAcc_nodup ks [] List.nodup_nil
    refine ⟨ks, hks, by rw [← hnames]; exact hkeysfold, by rw [← hnames]; exact hnodup, ?_⟩
    intro g hgmem
    obtain ⟨kv, hkvmem, hinit⟩ := forall2_mem_right hgs g hgmem
    obtain ⟨hname, hrecs⟩ := init_ok_shape hinit
    rw [hrecs, hname]
    have hfind : dictFind grouped kv.1 = some kv.2 := dictFind_of_mem_nodup hnodup hkvmem
    have hent : kv.2 = entryGet grouped kv.1 := by
      unfold entryGet
      rw [hfind]
      rfl
    rw [hent, hgrp, pfold_entry]
    rw [show entryGet [] kv.1 = [] from rfl, List.nil_append, zip_filter_eq hfa]

theorem forall2_mem_left_mem {α β : Type} {R : α → β → Prop} :
    ∀ {l : List α} {ys : List β}, List.Forall₂ R l ys → ∀ x ∈ l, ∃ y ∈ ys, R x y := by
  intro l ys h
  induction h with
  | nil => intro x hx; cases hx
  | cons hab _ ih =>
    intro x hx
    cases List.mem_cons.mp hx with
    | inl he => exact ⟨_, List.mem_cons_self _ _, he ▸ hab⟩
    | inr hm =>
      obtain ⟨y, hy, hr⟩ := ih x hm
      exact ⟨y, List.mem_cons_of_mem _ hy, hr⟩

theorem sum_map_single {α : Type} (f : α → Value) (k : Value) (c : ℕ) :
    ∀ (gs : List α), (gs.map f).Nodup → (∃ g ∈ gs, f g = k) →
      (gs.map (fun g => if f g = k then c else 0)).sum = c := by
  intro gs
  induction gs with
  | nil =>
    intro _ hex
    obtain ⟨g, hg, _⟩ := hex
    cases hg
  | cons a as ih =>
    intro hnd hex
    simp only [List.map_cons, List.nodup_cons] at hnd
    simp only [List.map_cons, List.sum_cons]
    obtain ⟨g, hg, hfg⟩ := hex
    cases List.mem_cons.mp hg with
    | inl he =>
      rw [he] at hfg
      rw [if_pos hfg]
      have hz : (as.map (fun g => if f g = k then c else 0)).sum = 0 := by
        apply List.sum_eq_zero
        intro x hx
        obtain ⟨b, hb, hbx⟩ := List.mem_map.mp hx
        rw [← hbx]
        have hbk : f b ≠ k := by
          intro hbk
          have hba : f b = f a := hbk.trans hfg.symm
          exact hnd.1 (hba ▸ List.mem_map_of_mem f hb)
        rw [if_neg hbk]
      rw [hz]
      simp
    | inr hm =>
      have hka : f a ≠ k := by
        intro he2
        have : f a = f g := he2.trans hfg.symm
        exact hnd.1 (this ▸ List.mem_map_of_mem f hm)
      rw [if_neg hka, ih hnd.2 ⟨g, hm, hfg⟩]
      simp

/-- C3: Report.process is a partition. On success the group names are
duplicate-free and equal, in order, to the first occurrences of the groupby
keys of the input; each group holds exactly the input records whose key equals
its name, in input order; the concatenation of all groups is a permutation of
the input (no record dropped or duplicated); and every input record lies in
exactly one group. -/
theorem C3 : ∀ (rep : Report) (records : List Record) (gs : List Group),
    rep.process records = Except.ok gs →
    (gs.map Group.name).Nodup ∧
    (∃ ks, exList (fun r => Record.getattr r rep.groupby) records = Except.ok ks ∧
      gs.map Group.name = firstSeen ks) ∧
    (∀ g ∈ gs, g.records =
      records.filter (fun r => decide (Record.getattr r rep.groupby = Except.ok g.name))) ∧
    ((gs.map Group.records).flatten).Perm records ∧
    (∀ r ∈ records, ∃! g, g ∈ gs ∧ r ∈ g.records) := by
  intro rep records gs h
  obtain ⟨ks, hks, hnames2, hnodup2, hrecords⟩ := process_char rep records gs h
  have hfa : List.Forall₂ (fun r k => Record.getattr r rep.groupby = Except.ok k)
      records ks := exList_ok_forall2 hks
  refine ⟨hnodup2, ⟨ks, hks, hnames2⟩, hrecords, ?_, ?_⟩
  · apply List.perm_iff_count.mpr
    intro x
    rw [List.count_flatten, List.map_map]
    by_cases hx : x ∈ records
    · obtain ⟨kx, hkxmem, hkx⟩ := forall2_mem_left_mem hfa x hx
      have hcnt : ∀ g ∈ gs, List.count x g.records =
          if Group.name g = kx then List.count x records else 0 := by
        intro g hg
        rw [hrecords g hg]
        by_cases hn : g.name = kx
        · rw [if_pos hn]
          apply List.count_filter
          simp only [decide_eq_true_eq]
          rw [hn]
          exact hkx
        · rw [if_neg hn, List.count_eq_zero]
          intro hmem
          have hc := (List.mem_filter.mp hmem).2
          simp only [decide_eq_true_eq] at hc
          injection hkx.symm.trans hc with h2
          exact hn h2.symm
      have hmapeq : gs.map (List.count x ∘ Group.records) =
          gs.map (fun g => if Group.name g = kx then List.count x records else 0) :=
        List.map_congr_left (fun g hg => hcnt g hg)
      rw [hmapeq]
      have hnamesex : ∃ g ∈ gs, Group.name g = kx := by
        have hk1 : kx ∈ firstSeen ks := mem_firstSeenAcc ks [] kx (Or.inl hkxmem)
        rw [← hnames2] at hk1
        exact List.mem_map.mp hk1
      exact sum_map_single Group.name kx (List.count x records) gs hnodup2 hnamesex
    · rw [List.count_eq_zero.mpr hx]
      apply List.sum_eq_zero
      intro y hy
      obtain ⟨g, hg, hgy⟩ := List.mem_map.mp hy
      rw [← hgy]
      show List.count x g.records = 0
      rw [hrecords g hg, List.count_eq_zero]
      intro hmem
      exact hx (List.mem_filter.mp hmem).1
  · intro r hr
    obtain ⟨kr, hkrmem, hkr⟩ := forall2_mem_left_mem hfa r hr
    have hk1 : kr ∈ firstSeen ks := mem_firstSeenAcc ks [] kr (Or.inl hkrmem)
    rw [← hnames2] at hk1
    obtain ⟨g, hg, hgn⟩ := List.mem_map.mp hk1
    refine ⟨g, ⟨hg, ?_⟩, ?_⟩
    · rw [hrecords g hg]
      apply List.mem_filter.mpr
      refine ⟨hr, ?_⟩
      simp only [decide_eq_true_eq]
      rw [hgn]
      exact hkr
    · intro g2 hg2c
      obtain ⟨hg2, hrg2⟩ := hg2c
      rw [hrecords g2 hg2] at hrg2
      have hcond := (List.mem_filter.mp hrg2).2
      simp only [decide_eq_true_eq] at hcond
      have hname2 : g2.name = kr := by
        injection hkr.symm.trans hcond with h3
        exact h3.symm
      exact List.inj_on_of_nodup_map hnodup2 hg2 hg (by rw [hname2, hgn])

/-- c3rep is a Report configuration grouping by department with no addons. -/
def c3rep : Report :=
  { groupby := "department"
    addons := []
    includeFields := ["name"]
    addMethods := [] }

/-- c3r1 is a concrete normalized record in department HR. -/
def c3r1 : Record :=
  Record.make (Value.int 1) (Value.str "HR") (Value.str "a@x") (Value.str "Anna")
    (Value.int 10) (Value.int 50)

/-- c3r2 is a concrete normalized record in department HR. -/
def c3r2 : Record :=
  Record.make (Value.int 2) (Value.str "HR") (Value.str "b@x") (Value.str "Ben")
    (Value.int 5) (Value.int 40)

/-- c3r3 is a concrete normalized record in department Fin. -/
def c3r3 : Record :=
  Record.make (Value.int 3) (Value.str "Fin") (Value.str "c@x") (Value.str "Carl")
    (Value.int 20) (Value.int 100)

/-- c3gs is the group list c3rep.process produces on the three records. -/
def c3gs : List Group :=
  [⟨Value.str "HR", [c3r1, c3r2], [], []⟩, ⟨Value.str "Fin", [c3r3], [], []⟩]

theorem C3_witness :
    c3rep.process [c3r1, c3r2, c3r3] = Except.ok c3gs ∧
    ((c3gs.map Group.name).Nodup ∧
    (∃ ks, exList (fun r => Record.getattr r c3rep.groupby) [c3r1, c3r2, c3r3] =
        Except.ok ks ∧ c3gs.map Group.name = firstSeen ks) ∧
    (∀ g ∈ c3gs, g.records = [c3r1, c3r2, c3r3].filter
      (fun r => decide (Record.getattr r c3rep.groupby = Except.ok g.name))) ∧
    ((c3gs.map Group.records).flatten).Perm [c3r1, c3r2, c3r3] ∧
    (∀ r ∈ [c3r1, c3r2, c3r3], ∃! g, g ∈ c3gs ∧ r ∈ g.records)) :=
  ⟨by decide, C3 c3rep [c3r1, c3r2, c3r3] c3gs (by decide)⟩

theorem dictSet_not_mem {α β : Type} [DecidableEq α] {d : List (α × β)} {k : α} (v : β)
    (h : k ∉ d.map Prod.fst) : dictSet d k v = d ++ [(k, v)] := by
  unfold dictSet
  rw [if_neg h]

theorem dictFind_dictSet_same {α β : Type} [DecidableEq α] :
    ∀ (d : List (α × β)) (k : α) (v : β), dictFind (dictSet d k v) k = some v := by
  intro d k v
  by_cases hk : k ∈ d.map Prod.fst
  · unfold dictSet
    rw [if_pos hk]
    induction d with
    | nil => cases hk
    | cons p ps ih =>
      simp only [List.map_cons]
      by_cases hpk : p.1 = k
      · rw [if_pos hpk]
        unfold dictFind
        rw [if_pos rfl]
      · rw [if_neg hpk]
        unfold dictFind
        rw [if_neg hpk]
        apply ih
        simp only [List.map_cons] at hk
        cases List.mem_cons.mp hk with
        | inl he => exact absurd he.symm hpk
        | inr hm => exact hm
  · rw [dictSet_not_mem v hk, dictFind_append, dictFind_not_mem hk]
    unfold dictFind
    rw [if_pos rfl]

theorem dictSet_map_noop {α β : Type} [DecidableEq α] {d : List (α × β)} {k : α} (v : β)
    (h : k ∉ d.map Prod.fst) : d.map (fun p => if p.1 = k then (k, v) else p) = d := by
  conv_rhs => rw [← List.map_id d]
  apply List.map_congr_left
  intro q hq
  have hqk : q.1 ≠ k := fun he => h (he ▸ List.mem_map_of_mem Prod.fst hq)
  rw [if_neg hqk]
  rfl

theorem dictFind_dictSet_other {α β : Type} [DecidableEq α] :
    ∀ (d : List (α × β)) (k : α) (v : β) (k' : α), k' ≠ k →
      dictFind (dictSet d k v) k' = dictFind d k' := by
  intro d k v k' hne
  by_cases hk : k ∈ d.map Prod.fst
  · unfold dictSet
    rw [if_pos hk]
    induction d with
    | nil => rfl
    | cons p ps ih =>
      simp only [List.map_cons]
      by_cases hpk : p.1 = k
      · rw [if_pos hpk]
        unfold dictFind
        rw [if_neg (show (k : α) ≠ k' from fun he => hne he.symm)]
        rw [if_neg (show p.1 ≠ k' from fun he => hne (by rw [← he, hpk]))]
        by_cases hmem : k ∈ ps.map Prod.fst
        · exact ih hmem
        · rw [dictSet_map_noop v hmem]
      · rw [if_neg hpk]
        unfold dictFind
        by_cases hp' : p.1 = k'
        · rw [if_pos hp', if_pos hp']
        · rw [if_neg hp', if_neg hp']
          by_cases hmem : k ∈ ps.map Prod.fst
          · exact ih hmem
          · rw [dictSet_map_noop v hmem]
  · rw [dictSet_not_mem v hk, dictFind_append]
    cases hd : dictFind d k' with
    | some l => rfl
    | none =>
      simp only
      unfold dictFind
      rw [if_neg (fun he => hne he.symm)]
      rfl

theorem listIndexStr_get : ∀ {l : List String} {x : String} {i : Nat},
    listIndexStr l x = Except.ok i → l.get? i = some x := by
  intro l
  induction l with
  | nil => intro x i h; cases h
  | cons y ys ih =>
    intro x i h
    unfold listIndexStr at h
    by_cases hyx : y = x
    · rw [if_pos hyx] at h
      injection h with h2
      rw [← h2, hyx]
      rfl
    · rw [if_neg hyx] at h
      cases hr : listIndexStr ys x with
      | error e => rw [hr] at h; cases h
      | ok j =>
        rw [hr] at h
        injection h with h2
        rw [← h2]
        exact ih hr

theorem listIndexStr_lt {l : List String} {x : String} {i : Nat}
    (h : listIndexStr l x = Except.ok i) : i < l.length :=
  List.get?_eq_some.mp (listIndexStr_get h) |>.1

theorem listIndexStr_inj {l : List String} {x y : String} {i : Nat}
    (hx : listIndexStr l x = Except.ok i) (hy : listIndexStr l y = Except.ok i) : x = y := by
  have h1 := listIndexStr_get hx
  have h2 := listIndexStr_get hy
  rw [h1] at h2
  injection h2

theorem record_cells_json {fields : List String} {r : Record} :
    ∀ {cells : List Value}, recordCells fields r = Except.ok cells →
      format_record fields r = Except.ok (fields.zip cells) ∧
      (fields.zip cells).map Prod.fst = fields ∧
      (fields.zip cells).map Prod.snd = cells := by
  intro cells h
  have hfa : List.Forall₂ (fun f v => Record.getattr r f = Except.ok v) fields cells :=
    exList_ok_forall2 h
  clear h
  induction hfa with
  | nil => exact ⟨rfl, rfl, rfl⟩
  | @cons f v fs vs hab _ ih =>
    refine ⟨?_, ?_, ?_⟩
    · unfold format_record exList
      rw [hab]
      have := ih.1
      unfold format_record at this
      rw [this]
      rfl
    · simp only [List.zip_cons_cons, List.map_cons]
      rw [ih.2.1]
    · simp only [List.zip_cons_cons, List.map_cons]
      rw [ih.2.2]

theorem records_console_json {fields : List String} :
    ∀ (rs : List Record) (recRows : List (List Value)),
      exList (fun r =>
        match recordCells fields r with
        | Except.error e => Except.error e
        | Except.ok cells => Except.ok (Value.str "" :: cells)) rs = Except.ok recRows →
      ∃ recs, exList (format_record fields) rs = Except.ok recs ∧
        recRows = recs.map (fun kvs => Value.str "" :: kvs.map Prod.snd) ∧
        (∀ kvs ∈ recs, kvs.map Prod.fst = fields) ∧
        recs.length = rs.length := by
  intro rs
  induction rs with
  | nil =>
    intro recRows h
    injection h with h2
    exact ⟨[], rfl, by rw [← h2]; rfl, fun kvs hk => absurd hk (List.not_mem_nil kvs), rfl⟩
  | cons r rest ih =>
    intro recRows h
    unfold exList at h
    cases hc : recordCells fields r with
    | error e => rw [hc] at h; exact Except.noConfusion h
    | ok cells =>
      rw [hc] at h
      cases hrest : exList (fun r =>
          match recordCells fields r with
          | Except.error e => Except.error e
          | Except.ok cells => Except.ok (Value.str "" :: cells)) rest with
      | error e => rw [hrest] at h; exact Except.noConfusion h
      | ok rows2 =>
        rw [hrest] at h
        injection h with h2
        obtain ⟨recs, hrecs, hrows, hfst, hlen⟩ := ih rows2 hrest
        obtain ⟨hfmt, hzf, hzs⟩ := record_cells_json hc
        refine ⟨fields.zip cells :: recs, ?_, ?_, ?_, ?_⟩
        · unfold exList
          rw [hfmt, hrecs]
        · rw [← h2, hrows]
          simp only [List.map_cons]
          rw [hzs]
        · intro kvs hk
          cases List.mem_cons.mp hk with
          | inl he => rw [he]; exact hzf
          | inr hm => exact hfst kvs hm
        · simp only [List.length_cons]
          rw [hlen]

theorem cfold_preserve (fields : List String) (g : Group) :
    ∀ (ads : List (String × String)) (cD D : List (Nat × Value)) (i : Nat),
      exFoldl (fun d a =>
        match listIndexStr fields a.2 with
        | Except.error e => Except.error e
        | Except.ok i =>
          match Group.getattr g (a.1 ++ "_" ++ a.2) with
          | Except.error e => Except.error e
          | Except.ok v => Except.ok (dictSet d i v)) cD ads = Except.ok D →
      (∀ b ∈ ads, ∀ j, listIndexStr fields b.2 = Except.ok j → j ≠ i) →
      dictFind D i = dictFind cD i := by
  intro ads
  induction ads with
  | nil =>
    intro cD D i h _
    injection h with h2
    rw [← h2]
  | cons a rest ih =>
    intro cD D i h hno
    unfold exFoldl at h
    cases hidx : listIndexStr fields a.2 with
    | error e => rw [hidx] at h; exact Except.noConfusion h
    | ok ia =>
      rw [hidx] at h
      cases hget : Group.getattr g (a.1 ++ "_" ++ a.2) with
      | error e => rw [hget] at h; exact Except.noConfusion h
      | ok v =>
        rw [hget] at h
        rw [ih (dictSet cD ia v) D i h (fun b hb => hno b (List.mem_cons_of_mem a hb))]
        exact dictFind_dictSet_other cD ia v i
          (Ne.symm (hno a (List.mem_cons_self a rest) ia hidx))

theorem addons_console_lookup (fields : List String) (g : Group) :
    ∀ (ads : List (String × String)) (cD D : List (Nat × Value)),
      exFoldl (fun d a =>
        match listIndexStr fields a.2 with
        | Except.error e => Except.error e
        | Except.ok i =>
          match Group.getattr g (a.1 ++ "_" ++ a.2) with
          | Except.error e => Except.error e
          | Except.ok v => Except.ok (dictSet d i v)) cD ads = Except.ok D →
      (∀ a ∈ ads, ∀ b ∈ ads, a.2 = b.2 → a = b) →
      ∀ a ∈ ads, ∃ i v, listIndexStr fields a.2 = Except.ok i ∧
        Group.getattr g (a.1 ++ "_" ++ a.2) = Except.ok v ∧ dictFind D i = some v := by
  intro ads
  induction ads with
  | nil => intro cD D _ _ a ha; cases ha
  | cons hd rest ih =>
    intro cD D h hinj a ha
    unfold exFoldl at h
    cases hidx : listIndexStr fields hd.2 with
    | error e => rw [hidx] at h; exact Except.noConfusion h
    | ok ihd =>
      rw [hidx] at h
      cases hget : Group.getattr g (hd.1 ++ "_" ++ hd.2) with
      | error e => rw [hget] at h; exact Except.noConfusion h
      | ok vhd =>
        rw [hget] at h
        by_cases hmem : a ∈ rest
        · exact ih (dictSet cD ihd vhd) D h
            (fun x hx y hy => hinj x (List.mem_cons_of_mem hd hx) y (List.mem_cons_of_mem hd hy))
            a hmem
        · have hahd : a = hd := by
            cases List.mem_cons.mp ha with
            | inl he => exact he
            | inr hm => exact absurd hm hmem
          refine ⟨ihd, vhd, by rw [hahd]; exact hidx, by rw [hahd]; exact hget, ?_⟩
          have hno : ∀ b ∈ rest, ∀ j, listIndexStr fields b.2 = Except.ok j → j ≠ ihd := by
            intro b hb j hj he
            rw [he] at hj
            have hba : b.2 = hd.2 := listIndexStr_inj hj hidx
            have hbhd : b = hd := hinj b (List.mem_cons_of_mem hd hb) hd
              (List.mem_cons_self hd rest) hba
            rw [← hahd] at hbhd
            exact hmem (hbhd ▸ hb)
          rw [cfold_preserve fields g rest (dictSet cD ihd vhd) D ihd h hno]
          exact dictFind_dictSet_same cD ihd vhd

theorem addons_json_ok (fields : List String) (g : Group) :
    ∀ (ads : List (String × String)) (cD D : List (Nat × Value)),
      exFoldl (fun d a =>
        match listIndexStr fields a.2 with
        | Except.error e => Except.error e
        | Except.ok i =>
          match Group.getattr g (a.1 ++ "_" ++ a.2) with
          | Except.error e => Except.error e
          | Except.ok v => Except.ok (dictSet d i v)) cD ads = Except.ok D →
      ∀ (jD : List (String × Value)), ∃ adds, exFoldl (fun d a =>
        match Group.getattr g (a.1 ++ "_" ++ a.2) with
        | Except.error e => Except.error e
        | Except.ok v => Except.ok (dictSet d (a.1 ++ "_" ++ a.2) v)) jD ads =
        Except.ok adds := by
  intro ads
  induction ads with
  | nil => intro cD D _ jD; exact ⟨jD, rfl⟩
  | cons hd rest ih =>
    intro cD D h jD
    unfold exFoldl at h
    cases hidx : listIndexStr fields hd.2 with
    | error e => rw [hidx] at h; exact Except.noConfusion h
    | ok ihd =>
      rw [hidx] at h
      cases hget : Group.getattr g (hd.1 ++ "_" ++ hd.2) with
      | error e => rw [hget] at h; exact Except.noConfusion h
      | ok vhd =>
        rw [hget] at h
        obtain ⟨adds, hadds⟩ := ih (dictSet cD ihd vhd) D h
          (dictSet jD (hd.1 ++ "_" ++ hd.2) vhd)
        refine ⟨adds, ?_⟩
        unfold exFoldl
        rw [hget]
        exact hadds

theorem jfold_preserve (g : Group) :
    ∀ (ads : List (String × String)) (jD adds : List (String × Value)) (key : String),
      exFoldl (fun d a =>
        match Group.getattr g (a.1 ++ "_" ++ a.2) with
        | Except.error e => Except.error e
        | Except.ok v => Except.ok (dictSet d (a.1 ++ "_" ++ a.2) v)) jD ads =
        Except.ok adds →
      (∀ b ∈ ads, b.1 ++ "_" ++ b.2 ≠ key) →
      dictFind adds key = dictFind jD key := by
  intro ads
  induction ads with
  | nil =>
    intro jD adds key h _
    injection h with h2
    rw [← h2]
  | cons a rest ih =>
    intro jD adds key h hno
    unfold exFoldl at h
    cases hget : Group.getattr g (a.1 ++ "_" ++ a.2) with
    | error e => rw [hget] at h; exact Except.noConfusion h
    | ok v =>
      rw [hget] at h
      rw [ih (dictSet jD (a.1 ++ "_" ++ a.2) v) adds key h
        (fun b hb => hno b (List.mem_cons_of_mem a hb))]
      exact dictFind_dictSet_other jD (a.1 ++ "_" ++ a.2) v key
        (Ne.symm (hno a (List.mem_cons_self a rest)))

theorem addons_json_lookup (g : Group) :
    ∀ (ads : List (String × String)) (jD adds : List (String × Value)),
      exFoldl (fun d a =>
        match Group.getattr g (a.1 ++ "_" ++ a.2) with
        | Except.error e => Except.error e
        | Except.ok v => Except.ok (dictSet d (a.1 ++ "_" ++ a.2) v)) jD ads =
        Except.ok adds →
      (∀ a ∈ ads, ∀ b ∈ ads, a.1 ++ "_" ++ a.2 = b.1 ++ "_" ++ b.2 → a = b) →
      ∀ a ∈ ads, ∃ v, Group.getattr g (a.1 ++ "_" ++ a.2) = Except.ok v ∧
        dictFind adds (a.1 ++ "_" ++ a.2) = some v := by
  intro ads
  induction ads with
  | nil => intro jD adds _ _ a ha; cases ha
  | cons hd rest ih =>
    intro jD adds h hinj a ha
    unfold exFoldl at h
    cases hget : Group.getattr g (hd.1 ++ "_" ++ hd.2) with
    | error e => rw [hget] at h; exact Except.noConfusion h
    | ok vhd =>
      rw [hget] at h
      by_cases hmem : a ∈ rest
      · exact ih (dictSet jD (hd.1 ++ "_" ++ hd.2) vhd) adds h
          (fun x hx y hy => hinj x (List.mem_cons_of_mem hd hx) y (List.mem_cons_of_mem hd hy))
          a hmem
      · have hahd : a = hd := by
          cases List.mem_cons.mp ha with
          | inl he => exact he
          | inr hm => exact absurd hm hmem
        refine ⟨vhd, by rw [hahd]; exact hget, ?_⟩
        have hno : ∀ b ∈ rest, b.1 ++ "_" ++ b.2 ≠ a.1 ++ "_" ++ a.2 := by
          intro b hb he
          have hbhd : b = a := by
            rw [hahd]
            exact hinj b (List.mem_cons_of_mem hd hb) hd (List.mem_cons_self hd rest)
              (by rw [← hahd]; exact he)
          exact hmem (hbhd ▸ hb)
        rw [hahd] at hno
        rw [show a.1 ++ "_" ++ a.2 = hd.1 ++ "_" ++ hd.2 from by rw [hahd]]
        rw [jfold_preserve g rest (dictSet jD (hd.1 ++ "_" ++ hd.2) vhd) adds
          (hd.1 ++ "_" ++ hd.2) h hno]
        exact dictFind_dictSet_same jD (hd.1 ++ "_" ++ hd.2) vhd

theorem consoleGroupRows_parts {fields : List String} {g : Group} {block : List (List Value)}
    (h : consoleGroupRows fields g = Except.ok block) :
    ∃ recRows D,
      exList (fun r =>
        match recordCells fields r with
        | Except.error e => Except.error e
        | Except.ok cells => Except.ok (Value.str "" :: cells)) g.records = Except.ok recRows ∧
      exFoldl (fun d a =>
        match listIndexStr fields a.2 with
        | Except.error e => Except.error e
        | Except.ok i =>
          match Group.getattr g (a.1 ++ "_" ++ a.2) with
          | Except.error e => Except.error e
          | Except.ok v => Except.ok (dictSet d i v)) ([] : List (Nat × Value)) g.addons =
        Except.ok D ∧
      block = (g.name :: fields.map (fun _ => Value.str "")) ::
        recRows ++ [Value.str "" :: (List.range fields.length).map
          (fun i => (dictFind D i).getD (Value.str ""))] := by
  unfold consoleGroupRows at h
  cases h1 : exList (fun r =>
      match recordCells fields r with
      | Except.error e => Except.error e
      | Except.ok cells => Except.ok (Value.str "" :: cells)) g.records with
  | error e => rw [h1] at h; exact Except.noConfusion h
  | ok recRows =>
    rw [h1] at h
    cases h2 : exFoldl (fun d a =>
        match listIndexStr fields a.2 with
        | Except.error e => Except.error e
        | Except.ok i =>
          match Group.getattr g (a.1 ++ "_" ++ a.2) with
          | Except.error e => Except.error e
          | Except.ok v => Except.ok (dictSet d i v)) ([] : List (Nat × Value)) g.addons with
    | error e => rw [h2] at h; exact Except.noConfusion h
    | ok D =>
      rw [h2] at h
      injection h with h3
      exact ⟨recRows, D, rfl, rfl, h3.symm⟩

theorem jsonGroupDoc_build {fields : List String} {g : Group}
    {recs : List (List (String × Value))} {adds : List (String × Value)}
    (h1 : exList (format_record fields) g.records = Except.ok recs)
    (h2 : exFoldl (fun d a =>
      match Group.getattr g (a.1 ++ "_" ++ a.2) with
      | Except.error e => Except.error e
      | Except.ok v => Except.ok (dictSet d (a.1 ++ "_" ++ a.2) v))
      ([] : List (String × Value)) g.addons = Except.ok adds) :
    jsonGroupDoc fields g = Except.ok ⟨recs, adds⟩ := by
  unfold jsonGroupDoc
  simp only [h1, h2]

theorem jsonfile_fold (fields : List String) :
    ∀ (glist : List Group) (fm : List (Value × GroupDoc)),
      (fm.map Prod.fst ++ glist.map Group.name).Nodup →
      (∀ g ∈ glist, ∃ gdoc, jsonGroupDoc fields g = Except.ok gdoc) →
      ∃ doc, exFoldl (fun formatted g =>
          match jsonGroupDoc fields g with
          | Except.error e => Except.error e
          | Except.ok d => Except.ok (dictSet formatted g.name d)) fm glist = Except.ok doc ∧
        doc.map Prod.fst = fm.map Prod.fst ++ glist.map Group.name ∧
        (∀ p ∈ fm, dictFind doc p.1 = some p.2) ∧
        (∀ g ∈ glist, ∀ gdoc, jsonGroupDoc fields g = Except.ok gdoc →
          dictFind doc g.name = some gdoc) := by
  intro glist
  induction glist with
  | nil =>
    intro fm hnd _
    refine ⟨fm, rfl, by simp, ?_, fun g hg => absurd hg (List.not_mem_nil g)⟩
    intro p hp
    apply dictFind_of_mem_nodup ?_ hp
    simpa using hnd
  | cons g rest ih =>
    intro fm hnd hok
    obtain ⟨gdoc, hgdoc⟩ := hok g (List.mem_cons_self g rest)
    have hgnotin : g.name ∉ fm.map Prod.fst := by
      intro hmem
      rw [List.nodup_append] at hnd
      exact hnd.2.2 hmem (by simp)
    have hstep : dictSet fm g.name gdoc = fm ++ [(g.name, gdoc)] := dictSet_not_mem gdoc hgnotin
    have hnd2 : ((fm ++ [(g.name, gdoc)]).map Prod.fst ++ rest.map Group.name).Nodup := by
      rw [List.map_append]
      simp only [List.map_cons, List.map_nil, List.append_assoc, List.singleton_append]
      simpa using hnd
    obtain ⟨doc, hdoc, hkeys, hfm, hrest⟩ := ih (fm ++ [(g.name, gdoc)]) hnd2
      (fun g2 hg2 => hok g2 (List.mem_cons_of_mem g hg2))
    refine ⟨doc, ?_, ?_, ?_, ?_⟩
    · unfold exFoldl
      simp only [hgdoc]
      rw [hstep]
      exact hdoc
    · rw [hkeys, List.map_append]
      simp only [List.map_cons, List.map_nil, List.append_assoc, List.singleton_append]
    · intro p hp
      exact hfm p (List.mem_append_left _ hp)
    · intro g2 hg2 gdoc2 hgdoc2
      cases List.mem_cons.mp hg2 with
      | inl he =>
        rw [he] at hgdoc2
        have hd2 : gdoc = gdoc2 := by
          injection hgdoc.symm.trans hgdoc2
        rw [he, ← hd2]
        exact hfm (g.name, gdoc) (List.mem_append_right fm (List.mem_singleton_self _))
      | inr hm => exact hrest g2 hm gdoc2 hgdoc2

/-- C7: the two renderers agree. For every Review whose group names are
distinct and whose addon lists identify their aggregates unambiguously (both
invariants hold for every Review a Report produces), when the table renderer
succeeds the structured renderer succeeds too; the document lists the groups
in the same order, every record appears as a key-value list whose key order is
exactly the field list, the console record rows carry the same values in the
same order, and each aggregate value sits in the console aggregate row under
the column of its field and in the document under its composite key. -/
theorem C7 : ∀ (review : Review) (rows : List (List Value)),
    (review.groups.map Group.name).Nodup →
    (∀ g ∈ review.groups, ∀ a ∈ g.addons, ∀ b ∈ g.addons, a.2 = b.2 → a = b) →
    (∀ g ∈ review.groups, ∀ a ∈ g.addons, ∀ b ∈ g.addons,
      a.1 ++ "_" ++ a.2 = b.1 ++ "_" ++ b.2 → a = b) →
    Formatter.consoleRows review = Except.ok rows →
    ∃ blocks doc,
      exList (consoleGroupRows review.fields) review.groups = Except.ok blocks ∧
      rows = (Value.str "" :: review.fields.map (fun f => Value.str (pyCapitalize f))) ::
        blocks.flatten ∧
      Formatter.jsonfile review = Except.ok doc ∧
      doc.map Prod.fst = review.groups.map Group.name ∧
      ∀ g ∈ review.groups, ∃ gdoc recRows aggRow,
        dictFind doc g.name = some gdoc ∧
        consoleGroupRows review.fields g = Except.ok
          ((g.name :: review.fields.map (fun _ => Value.str "")) :: recRows ++ [aggRow]) ∧
        recRows = gdoc.records.map (fun kvs => Value.str "" :: kvs.map Prod.snd) ∧
        (∀ kvs ∈ gdoc.records, kvs.map Prod.fst = review.fields) ∧
        gdoc.records.length = g.records.length ∧
        (∀ a ∈ g.addons, ∃ i v, listIndexStr review.fields a.2 = Except.ok i ∧
          dictFind gdoc.addons (a.1 ++ "_" ++ a.2) = some v ∧
          aggRow.get? (i + 1) = some v) := by
  intro review rows hnd hfinj hjinj hcons
  unfold Formatter.consoleRows at hcons
  cases hblocks : exList (consoleGroupRows review.fields) review.groups with
  | error e => rw [hblocks] at hcons; exact Except.noConfusion hcons
  | ok blocks =>
    rw [hblocks] at hcons
    injection hcons with hrows
    have hjok : ∀ g ∈ review.groups, ∃ gdoc, jsonGroupDoc review.fields g = Except.ok gdoc := by
      intro g hg
      obtain ⟨block, hblock⟩ := exList_ok_mem hblocks g hg
      obtain ⟨recRows, D, hrec, hD, _⟩ := consoleGroupRows_parts hblock
      obtain ⟨recs, hrecs, _, _, _⟩ := records_console_json g.records recRows hrec
      obtain ⟨adds, hadds⟩ := addons_json_ok review.fields g g.addons [] D hD []
      exact ⟨⟨recs, adds⟩, jsonGroupDoc_build hrecs hadds⟩
    have hnd2 : (([] : List (Value × GroupDoc)).map Prod.fst ++
        review.groups.map Group.name).Nodup := by simpa using hnd
    obtain ⟨doc, hdoc, hkeys, _, hlook⟩ := jsonfile_fold review.fields review.groups [] hnd2 hjok
    refine ⟨blocks, doc, rfl, hrows.symm, ?_, ?_, ?_⟩
    · unfold Formatter.jsonfile
      exact hdoc
    · rw [hkeys]
      simp
    · intro g hg
      obtain ⟨block, hblock⟩ := exList_ok_mem hblocks g hg
      obtain ⟨recRows, D, hrec, hD, hblockeq⟩ := consoleGroupRows_parts hblock
      obtain ⟨recs, hrecs, hrows2, hfst, hlen⟩ := records_console_json g.records recRows hrec
      obtain ⟨adds, hadds⟩ := addons_json_ok review.fields g g.addons [] D hD []
      have hgdoc := jsonGroupDoc_build hrecs hadds
      rw [hblockeq] at hblock
      refine ⟨⟨recs, adds⟩, recRows,
        Value.str "" :: (List.range review.fields.length).map
          (fun i => (dictFind D i).getD (Value.str "")),
        hlook g hg _ hgdoc, hblock, hrows2, hfst, hlen, ?_⟩
      intro a ha
      obtain ⟨i, v, hidx, hget, hDi⟩ := addons_console_lookup review.fields g g.addons [] D hD
        (hfinj g hg) a ha
      obtain ⟨v2, hget2, hlook2⟩ := addons_json_lookup g g.addons [] adds hadds
        (hjinj g hg) a ha
      have hv : v2 = v := by
        injection hget2.symm.trans hget
      rw [hv] at hlook2
      refine ⟨i, v, hidx, hlook2, ?_⟩
      have hi := listIndexStr_lt hidx
      show ((List.range review.fields.length).map
        (fun j => (dictFind D j).getD (Value.str ""))).get? i = some v
      rw [List.get?_map, List.get?_range hi]
      simp [hDi]

/-- c7rec is a concrete record with a payout attribute. -/
def c7rec : Record :=
  Record.make (Value.int 1) (Value.str "HR") (Value.str "x") (Value.str "A")
    (Value.int 5) (Value.int 2)

/-- c7review is a one-group Review with a total_hours aggregate over the
displayed field hours. -/
def c7review : Review :=
  { groups := [⟨Value.str "HR", [c7rec], [("total", "hours")],
      [("total_hours", Value.int 5)]⟩]
    fields := ["hours"] }

/-- c7rows is the cell table the console renderer builds for c7review. -/
def c7rows : List (List Value) :=
  [[Value.str "", Value.str "Hours"],
   [Value.str "HR", Value.str ""],
   [Value.str "", Value.int 5],
   [Value.str "", Value.int 5]]

theorem C7_witness :
    ∃ blocks doc,
      exList (consoleGroupRows c7review.fields) c7review.groups = Except.ok blocks ∧
      c7rows = (Value.str "" :: c7review.fields.map (fun f => Value.str (pyCapitalize f))) ::
        blocks.flatten ∧
      Formatter.jsonfile c7review = Except.ok doc ∧
      doc.map Prod.fst = c7review.groups.map Group.name ∧
      ∀ g ∈ c7review.groups, ∃ gdoc recRows aggRow,
        dictFind doc g.name = some gdoc ∧
        consoleGroupRows c7review.fields g = Except.ok
          ((g.name :: c7review.fields.map (fun _ => Value.str "")) :: recRows ++ [aggRow]) ∧
        recRows = gdoc.records.map (fun kvs => Value.str "" :: kvs.map Prod.snd) ∧
        (∀ kvs ∈ gdoc.records, kvs.map Prod.fst = c7review.fields) ∧
        gdoc.records.length = g.records.length ∧
        (∀ a ∈ g.addons, ∃ i v, listIndexStr c7review.fields a.2 = Except.ok i ∧
          dictFind gdoc.addons (a.1 ++ "_" ++ a.2) = some v ∧
          aggRow.get? (i + 1) = some v) :=
  C7 c7review c7rows (by decide) (by decide) (by decide) (by decide)

example : to_number (Value.str "10") none = Value.int 10 := by decide
example : to_number (Value.str "2.5") none = Value.float (mkRat 5 2) := by decide
example : to_number (Value.str "abc") (some (Value.int 0)) = Value.int 0 := by decide
example : to_number (Value.str "abc") none = Value.str "abc" := by decide
example : to_number (Value.str "-4.0") none = Value.int (-4) := by decide

end Reports
